import Mathlib

/-!
Verification development for the resume-analysis core: the text segmentation
pipeline (`parseResumeTextFallback` and its field extractors) and the
deterministic retrieval responder (`normalizeParsed`,
`answerFromParsedDeterministic`).  Source strings are modelled as lists of
characters (`Str`); every JavaScript string operation used by the source is
given an explicit executable model.
-/

/-- Character-list model of JavaScript strings. -/
abbrev Str := List Char

/-- Lift a Lean string literal to the character-list model. -/
def strL (s : String) : Str := s.data

/-- Whitespace as recognised by `String.prototype.trim` and the `\s` class
(for the characters that actually occur in resume text). -/
def isWsChar (c : Char) : Bool := c == ' ' || c == '\t' || c == '\n' || c == '\r'

/-- Model of `s.trim()`. -/
def jsTrim (s : Str) : Str :=
  ((s.dropWhile isWsChar).reverse.dropWhile isWsChar).reverse

/-- Model of `s.toLowerCase()` (ASCII, which covers all keywords involved). -/
def lowerStr (s : Str) : Str := s.map Char.toLower

/-- Model of `hay.includes(needle)`. -/
def hasSub (hay needle : Str) : Bool := hay.tails.any (fun t => needle.isPrefixOf t)

/-- Model of `s.startsWith(pre)`. -/
def startsW (pre s : Str) : Bool := pre.isPrefixOf s

/-- Split a character list at every character satisfying `p`, keeping empty
parts, as `String.prototype.split` with a character-class regex does. -/
def splitChAux (p : Char → Bool) : Str → Str → List Str
  | [], acc => [acc.reverse]
  | c :: cs, acc => if p c then acc.reverse :: splitChAux p cs [] else splitChAux p cs (c :: acc)

/-- Model of `s.split(<class>)`. -/
def splitCls (p : Char → Bool) (s : Str) : List Str := splitChAux p s []

/-- Model of `text.split('\n')`. -/
def splitNl (s : Str) : List Str := splitCls (fun c => c == '\n') s

/-- Model of `lines.join('\n')`. -/
def joinNl (ls : List Str) : Str := List.intercalate (strL "\n") ls

/-- Model of `parts.join(sep)` for an arbitrary separator. -/
def joinSep (sep : Str) (ls : List Str) : Str := List.intercalate sep ls

/-- The JavaScript `\w` (word character) class `[A-Za-z0-9_]`. -/
def isWordCh (c : Char) : Bool := c.isAlphanum || c == '_'

/-- ASCII letter, as matched by `[a-z]` under the `i` flag. -/
def isAsciiAlpha (c : Char) : Bool := c.isAlpha

/-- Model of `/^\d+$/.test(s)`. -/
def allDigits (s : Str) : Bool := !s.isEmpty && s.all Char.isDigit

/-- Model of `/^[A-Z\s:]+$/.test(line)`: the whole line consists of capitals,
whitespace and colons (and is non-empty). -/
def allCapsColon (line : Str) : Bool :=
  !line.isEmpty && line.all (fun c => ('A' ≤ c && c ≤ 'Z') || isWsChar c || c == ':')

/-- The section kinds recognised by the segmenter, in the fixed key order of
the `sectionKeywords` dictionary of `parseResumeTextFallback`. -/
inductive SectionKind
  | objective | skills | education | experience | projects | certifications | languages
deriving DecidableEq, Repr

/-- Dictionary iteration order of `Object.entries(sectionKeywords)`. -/
def sectionOrder : List SectionKind :=
  [.objective, .skills, .education, .experience, .projects, .certifications, .languages]

/-- Trigger-keyword dictionary of the enhanced segmenter (`sectionKeywords`
in `parseResumeTextFallback`, src/unnamed/part_002). -/
def sectionKeywords : SectionKind → List Str
  | .objective => ["objective", "summary", "profile", "about", "professional summary"].map strL
  | .skills => ["skills", "technical skills", "tech stack", "technologies", "competencies",
      "expertise", "core competencies", "technical expertise", "programming languages",
      "tools", "software"].map strL
  | .education => ["education", "academic", "qualification", "degree", "university",
      "college", "academic background"].map strL
  | .experience => ["experience", "work history", "employment", "professional experience",
      "work experience", "career", "employment history"].map strL
  | .projects => ["projects", "personal projects", "portfolio", "project experience",
      "key projects", "project", "side projects", "academic projects", "notable projects"].map strL
  | .certifications => ["certifications", "certificates", "licenses", "certification",
      "credentials"].map strL
  | .languages => ["languages", "language proficiency", "language skills",
      "spoken languages"].map strL

/-- The per-keyword header test of the enhanced segmenter (`isHeader` in
`parseResumeTextFallback`): exact/colon/prefix forms, or containment plus a
header-shape condition. -/
def kwHeaderTest (line lowerLine kw : Str) : Bool :=
  lowerLine == kw ||
  lowerLine == (kw ++ [':']) ||
  startsW (kw ++ [':']) lowerLine ||
  startsW (kw ++ strL " -") lowerLine ||
  startsW (kw ++ [' ']) lowerLine ||
  (hasSub lowerLine kw &&
    (decide (line.length < 60) ||
     allCapsColon line ||
     line.contains ':' ||
     (decide (line.length < 100) && !line.contains ',' && !line.contains '.')))

/-- Whether a (trimmed) line passes the header test for section `s`. -/
def sectionHeaderTest (s : SectionKind) (line : Str) : Bool :=
  (sectionKeywords s).any (kwHeaderTest line (lowerStr line))

/-- Month-name prefixes of the experience date regex (case-insensitive). -/
def monthPrefixes : List Str :=
  ["jan", "feb", "mar", "apr", "may", "jun", "jul", "aug", "sep", "oct", "nov", "dec"].map strL

/-- Four digits followed by a word boundary (`\d{4}\b`). -/
def fourDigitsThenB : Str → Bool
  | a :: b :: c :: d :: rest =>
      a.isDigit && b.isDigit && c.isDigit && d.isDigit &&
      (match rest with | [] => true | e :: _ => !isWordCh e)
  | _ => false

/-- A case-insensitive literal keyword followed by a word boundary. -/
def kwThenB (kw t : Str) : Bool :=
  kw.isPrefixOf (lowerStr t) && (match t.drop kw.length with | [] => true | c :: _ => !isWordCh c)

/-- First alternative of the experience date regex at the current position:
`(Jan|...|Dec)[a-z]*\s+\d{4}\b` under the `i` flag. -/
def dateAlt1 (t : Str) : Bool :=
  monthPrefixes.any (fun m =>
    m.isPrefixOf (lowerStr t) &&
    (let rest2 := (t.drop 3).dropWhile isAsciiAlpha
     (match rest2 with | c :: _ => isWsChar c | [] => false) &&
     fourDigitsThenB (rest2.dropWhile isWsChar)))

/-- Second alternative: `\d{4}\s*[-–—]\s*(present|current|\d{4})\b`. -/
def dateAlt2 : Str → Bool
  | a :: b :: c :: d :: rest =>
      a.isDigit && b.isDigit && c.isDigit && d.isDigit &&
      (match rest.dropWhile isWsChar with
       | dsh :: r2 =>
           (dsh == '-' || dsh == '–' || dsh == '—') &&
           (let r3 := r2.dropWhile isWsChar
            kwThenB (strL "present") r3 || kwThenB (strL "current") r3 || fourDigitsThenB r3)
       | [] => false)
  | _ => false

/-- Scan for the experience date regex anywhere in the line; both alternatives
open with `\b` before a word character, so the previous character (if any)
must not be a word character. -/
def scanHasDate : Option Char → Str → Bool
  | _, [] => false
  | prev, c :: rest =>
      ((match prev with | none => true | some p => !isWordCh p) &&
        (dateAlt1 (c :: rest) || dateAlt2 (c :: rest))) ||
      scanHasDate (some c) rest

/-- Model of `line.match(datePattern)` truthiness in `extractExperience`. -/
def hasDatePattern (line : Str) : Bool := scanHasDate none line

/-- Bullet markers recognised by `extractExperience` and `extractProjects`. -/
def isBulletCh (c : Char) : Bool := c == '-' || c == '•' || c == '·'

/-- Model of `line.match(/^[-•·]\s*/)` truthiness. -/
def bulletStart (line : Str) : Bool :=
  match line with | c :: _ => isBulletCh c | [] => false

/-- Model of `line.replace(/^[-•·]\s*/, '')`: remove one leading bullet and
the following whitespace run (first match only). -/
def stripBulletWs (line : Str) : Str :=
  match line with
  | c :: rest => if isBulletCh c then rest.dropWhile isWsChar else line
  | [] => line

/-- Experience entry as built by `extractExperience`; optional fields model
dynamically added object keys. -/
structure ExperienceEntry where
  company : Option Str := none
  position : Option Str := none
  duration : Option Str := none
  details : Option Str := none
  responsibilities : List Str := []
deriving DecidableEq, Repr

/-- Model of `Object.keys(currentEntry).length > 0` inside `extractExperience`
(the keys ever present during the loop are the four optional fields). -/
def expAccNonEmpty (e : ExperienceEntry) : Bool :=
  e.company.isSome || e.position.isSome || e.duration.isSome || e.details.isSome

/-- One loop iteration of `extractExperience`: state is (finished entries,
current entry, pending responsibilities array). -/
def extractExperienceStep (st : List ExperienceEntry × ExperienceEntry × List Str) (line : Str) :
    List ExperienceEntry × ExperienceEntry × List Str :=
  let (entries, cur, resp) := st
  if hasDatePattern line then
    if expAccNonEmpty cur then
      (entries ++ [{ cur with responsibilities := resp }], { duration := some line }, [])
    else
      (entries, { duration := some line }, resp)
  else if bulletStart line then
    (entries, cur, resp ++ [jsTrim (stripBulletWs line)])
  else if cur.company.isNone && decide (line.length > 2) then
    (entries, { cur with company := some line }, resp)
  else if cur.position.isNone && decide (line.length > 2) then
    (entries, { cur with position := some line }, resp)
  else if !(jsTrim line).isEmpty then
    (entries, { cur with details := some ((cur.details.getD []) ++ [' '] ++ line) }, resp)
  else
    (entries, cur, resp)

/-- Model of `extractExperience` (src/unnamed/part_002, lines 494-527). -/
def extractExperience (lines : List Str) : List ExperienceEntry :=
  let fin := lines.foldl extractExperienceStep ([], {}, [])
  let (entries, cur, resp) := fin
  if expAccNonEmpty cur then entries ++ [{ cur with responsibilities := resp }] else entries

/-- The experience buffer of claim C3. -/
def c3buf : List Str :=
  ["Acme Co", "Engineer", "2019 - Present", "- Built X", "- Shipped Y"].map strL

/-- C3 counterexample: on the buffer ["Acme Co", "Engineer", "2019 - Present",
"- Built X", "- Shipped Y"] experience extraction yields two entries, not the
single entry the claim describes. -/
theorem c3_counterexample :
    (extractExperience c3buf).length = 2 ∧ (extractExperience c3buf).length ≠ 1 := by
  decide

/-- C3 amended: on that buffer extraction yields exactly two entries: the
lines before the date line form a first entry with company "Acme Co" and
position "Engineer" (no duration, no responsibilities), and the date line
starts a second entry with duration "2019 - Present" and responsibilities
["Built X", "Shipped Y"]. -/
theorem c3_amended :
    extractExperience c3buf =
      [{ company := some (strL "Acme Co"), position := some (strL "Engineer") },
       { duration := some (strL "2019 - Present"),
         responsibilities := [strL "Built X", strL "Shipped Y"] }] := by
  decide

/-- The curated technology keyword list of `extractSkills`. -/
def techKeywords60 : List Str :=
  ["javascript", "typescript", "python", "java", "c++", "c#", "php", "ruby", "go", "rust",
   "swift", "kotlin",
   "react", "angular", "vue", "node", "express", "django", "flask", "spring", "laravel", "rails",
   "html", "css", "sass", "scss", "less", "bootstrap", "tailwind", "material-ui",
   "sql", "mysql", "postgresql", "mongodb", "redis", "elasticsearch", "oracle",
   "aws", "azure", "gcp", "docker", "kubernetes", "jenkins", "git", "github", "gitlab",
   "linux", "windows", "macos", "unix",
   "agile", "scrum", "devops", "ci/cd", "microservices", "rest", "graphql", "api"].map strL

/-- Stop-word list of the strict pass of `extractSkills`. -/
def nonSkillWords8 : List Str :=
  ["and", "or", "the", "with", "using", "experience", "years", "proficient"].map strL

/-- Stop-word list of the lenient pass of `extractSkills`. -/
def nonSkillWords10 : List Str :=
  ["and", "or", "the", "with", "using", "experience", "years", "proficient",
   "skills", "technical"].map strL

/-- Header-looking lines skipped by `extractSkills`:
`line.length < 30 && /^[A-Z\s:]+$/.test(line)`. -/
def skillsSkipLine (line : Str) : Bool := decide (line.length < 30) && allCapsColon line

/-- Model of `line.split(/[,|•·\n\t]/)`. -/
def splitSkillParts (line : Str) : List Str :=
  splitCls (fun c => c == ',' || c == '|' || c == '•' || c == '·' || c == '\n' || c == '\t') line

/-- The character class of `/^[-•·\d.)\s]+/`. -/
def isLeadStripCh (c : Char) : Bool :=
  isBulletCh c || c.isDigit || c == '.' || c == ')' || isWsChar c

/-- Strict-pass token clean-up: `part.trim()` then
`.replace(/^[-•·\d.)\s]+/, '').trim()`. -/
def skillToken (part : Str) : Str := jsTrim ((jsTrim part).dropWhile isLeadStripCh)

/-- Lenient-pass token clean-up: `part.replace(/^[-•·\d.)\s]+/, '').trim()`. -/
def skillTokenLenient (part : Str) : Str := jsTrim (part.dropWhile isLeadStripCh)

/-- Strict-pass admission test of `extractSkills`: length 2..99 and (keyword
containment in either direction, or length > 2 and not a stop word). -/
def strictAdmits (t : Str) : Bool :=
  decide (1 < t.length) && decide (t.length < 100) &&
  (techKeywords60.any (fun k => hasSub (lowerStr t) k || hasSub k (lowerStr t)) ||
   (decide (2 < t.length) && !(nonSkillWords8.contains (lowerStr t))))

/-- Lenient-pass admission test: length 2..49, not a stop word, not all
digits. -/
def lenientAdmits (t : Str) : Bool :=
  decide (1 < t.length) && decide (t.length < 50) &&
  !(nonSkillWords10.contains (lowerStr t)) && !(allDigits (lowerStr t))

/-- Model of `Set.prototype.add` on a set represented as its insertion-order
element list. -/
def jsSetAdd (s : List Str) (x : Str) : List Str := if x ∈ s then s else s ++ [x]

/-- Strict pass of `extractSkills` over one line, adding kept tokens to the
`skills` set. -/
def strictLineFold (acc : List Str) (line : Str) : List Str :=
  if skillsSkipLine line then acc
  else (splitSkillParts line).foldl
    (fun a part => if strictAdmits (skillToken part) then jsSetAdd a (skillToken part) else a) acc

/-- Lenient pass of `extractSkills` over one line, pushing kept tokens onto
the `allSkills` array. -/
def lenientLineFold (acc : List Str) (line : Str) : List Str :=
  if skillsSkipLine line then acc
  else (splitSkillParts line).foldl
    (fun a part => if lenientAdmits (skillTokenLenient part) then a ++ [skillTokenLenient part] else a) acc

/-- Model of `extractSkills` (src/unnamed/part_002, lines 395-465): strict
keyword pass into a `Set`; if fewer than 3 skills were kept, a lenient re-run
whose results are unioned after the strict ones via `new Set([...])`. -/
def extractSkills (lines : List Str) : List Str :=
  let skills := lines.foldl strictLineFold []
  if skills.length < 3 then
    let allSkills := lines.foldl lenientLineFold []
    (skills ++ allSkills).foldl jsSetAdd []
  else skills

/-- The stream of tokens the strict pass of `extractSkills` tries to add, in
encounter order and with duplicates (specification-side view of the pass). -/
def strictStream (lines : List Str) : List Str :=
  lines.foldl
    (fun acc line =>
      if skillsSkipLine line then acc
      else (splitSkillParts line).foldl
        (fun a part => if strictAdmits (skillToken part) then a ++ [skillToken part] else a) acc) []

/-- The stream of tokens the lenient pass pushes (it is already a plain
push-list in the source). -/
def lenientStream (lines : List Str) : List Str := lines.foldl lenientLineFold []

/-- First-occurrence de-duplication: keep each string at the position of its
first appearance (specification-side model of JavaScript `Set` insertion
order). -/
def keepFirst : List Str → List Str
  | [] => []
  | x :: xs => x :: keepFirst (xs.filter (fun y => y != x))
termination_by l => l.length
decreasing_by
  simp only [List.length_cons]
  exact Nat.lt_succ_of_le (List.length_filter_le _ _)

/-- Education entry as built by `extractEducation`. -/
structure EducationEntry where
  institution : Option Str := none
  degree : Option Str := none
  year : Option Str := none
  details : Option Str := none
deriving DecidableEq, Repr

/-- Model of `Object.keys(currentEntry).length > 0` in `extractEducation`. -/
def eduNonEmpty (e : EducationEntry) : Bool :=
  e.institution.isSome || e.degree.isSome || e.year.isSome || e.details.isSome

/-- First match of `/\b(19|20)\d{2}\b/` in a line, if any. -/
def scanYear : Option Char → Str → Option Str
  | _, [] => none
  | prev, c :: rest =>
      if (match prev with | none => true | some p => !isWordCh p) then
        match c :: rest with
        | a :: b :: c2 :: d :: r =>
            if ((a == '1' && b == '9') || (a == '2' && b == '0')) && c2.isDigit && d.isDigit &&
               (match r with | [] => true | e :: _ => !isWordCh e)
            then some [a, b, c2, d]
            else scanYear (some c) rest
        | _ => scanYear (some c) rest
      else scanYear (some c) rest

/-- Model of `line.match(/\b(19|20)\d{2}\b/)` returning the matched year. -/
def yearFirstMatch (line : Str) : Option Str := scanYear none line

/-- One loop iteration of `extractEducation`. -/
def extractEducationStep (st : List EducationEntry × EducationEntry) (line : Str) :
    List EducationEntry × EducationEntry :=
  let (entries, cur) := st
  match yearFirstMatch line with
  | some y =>
      ((if eduNonEmpty cur then entries ++ [cur] else entries),
       { year := some y, details := some line })
  | none =>
      if cur.institution.isNone && decide (line.length > 3) then
        (entries, { cur with institution := some line })
      else if cur.degree.isNone && decide (line.length > 3) then
        (entries, { cur with degree := some line })
      else if cur.degree.isSome then
        (entries, { cur with details := some ((cur.details.getD []) ++ [' '] ++ line) })
      else (entries, cur)

/-- Model of `extractEducation` (src/unnamed/part_002, lines 467-492). -/
def extractEducation (lines : List Str) : List EducationEntry :=
  let fin := lines.foldl extractEducationStep ([], {})
  if eduNonEmpty fin.2 then fin.1 ++ [fin.2] else fin.1

/-- Project entry as built by `extractProjects`. -/
structure ProjectEntry where
  name : Option Str := none
  description : Option Str := none
  technologies : Option (List Str) := none
deriving DecidableEq, Repr

/-- Model of `/^\d+[.)]\s/.test(line)`. -/
def numberedStart (line : Str) : Bool :=
  let ds := line.takeWhile Char.isDigit
  !ds.isEmpty &&
  (match line.drop ds.length with
   | c :: d :: _ => (c == '.' || c == ')') && isWsChar d
   | _ => false)

/-- Model of `/^\d{4}/.test(line)`. -/
def startsWith4Digits (line : Str) : Bool :=
  match line with
  | a :: b :: c :: d :: _ => a.isDigit && b.isDigit && c.isDigit && d.isDigit
  | _ => false

/-- The keyword alternation of `extractProjects`' technology-line test
(it has no word boundaries: plain substring containment, case-insensitive). -/
def projTechKeywords : List Str :=
  ["javascript", "python", "java", "react", "node", "sql", "html", "css", "typescript",
   "angular", "vue", "docker", "aws", "azure", "git", "mongodb", "postgresql", "mysql",
   "redis", "linux", "windows", "api", "rest", "graphql"].map strL

/-- New-project heuristic of `extractProjects`. -/
def isNewProjectLine (t : Str) : Bool :=
  startsW (strL "-") t || startsW (strL "•") t || startsW (strL "*") t ||
  numberedStart t ||
  (decide (t.length < 80) && !t.contains ',' && !startsWith4Digits t)

/-- The character class of `/^[-•*\d.)\s]+/` used to clean project titles. -/
def isProjLeadCh (c : Char) : Bool :=
  c == '-' || c == '•' || c == '*' || c.isDigit || c == '.' || c == ')' || isWsChar c

/-- Whether `currentEntry.name || currentEntry.description` is truthy. -/
def projPushable (e : ProjectEntry) : Bool := e.name.isSome || e.description.isSome

/-- One loop iteration of `extractProjects`. -/
def extractProjectsStep (st : List ProjectEntry × ProjectEntry) (line : Str) :
    List ProjectEntry × ProjectEntry :=
  let (entries, cur) := st
  let t := jsTrim line
  if t.isEmpty then (entries, cur)
  else if isNewProjectLine t then
    let entries := if projPushable cur then entries ++ [cur] else entries
    let cleanLine := jsTrim (t.dropWhile isProjLeadCh)
    if cleanLine.isEmpty then (entries, {}) else (entries, { name := some cleanLine })
  else
    match cur.name with
    | some _ =>
        match cur.description with
        | none => (entries, { cur with description := some t })
        | some d =>
            match cur.technologies with
            | none =>
                if projTechKeywords.any (fun k => hasSub (lowerStr t) k) ||
                   t.contains ',' || t.contains '|' then
                  let techs := ((splitCls (fun c => c == ',' || c == '|') t).map jsTrim).filter
                    (fun x => !x.isEmpty)
                  (entries, { cur with technologies := some techs })
                else (entries, { cur with description := some (d ++ [' '] ++ t) })
            | some _ => (entries, { cur with description := some (d ++ [' '] ++ t) })
    | none =>
        if decide (t.length < 100) && !startsWith4Digits t && decide (t.length > 5) then
          (entries, { name := some t })
        else (entries, cur)

/-- Model of `extractProjects` (src/unnamed/part_002, lines 529-601),
including the bare-name fallback when no structured entry was found. -/
def extractProjects (lines : List Str) : List ProjectEntry :=
  let fin := lines.foldl extractProjectsStep ([], {})
  let entries := if projPushable fin.2 then fin.1 ++ [fin.2] else fin.1
  if entries.isEmpty && !lines.isEmpty then
    lines.foldl
      (fun acc line =>
        let t := jsTrim line
        if !t.isEmpty && decide (t.length > 10) && decide (t.length < 200) &&
           !startsWith4Digits t && !allCapsColon t && !t.contains '@' then
          acc ++ [{ name := some t, description := some [] }]
        else acc) []
  else entries

/-- Local-part character class of the email regex: `[A-Za-z0-9._%+-]`. -/
def isEmailLocalCh (c : Char) : Bool :=
  c.isAlphanum || c == '.' || c == '_' || c == '%' || c == '+' || c == '-'

/-- Domain character class of the email regex: `[A-Za-z0-9.-]`. -/
def isEmailDomCh (c : Char) : Bool := c.isAlphanum || c == '.' || c == '-'

/-- Top-level-domain class of the email regex: `[A-Z|a-z]` (the class as
written in the source literally contains the pipe character). -/
def isTldCh (c : Char) : Bool := c.isAlpha || c == '|'

/-- Whether a word boundary holds between a character and its successor
(`none` stands for the start or end of the string). -/
def boundaryBetween (a b : Option Char) : Bool :=
  (match a with | none => false | some c => isWordCh c) !=
  (match b with | none => false | some c => isWordCh c)

/-- Backtracking search for the longest `[A-Z|a-z]{2,}\b` match length at the
start of `rest3` (the regex engine shortens the greedy run until the trailing
word boundary holds). -/
def tldSearch (rest3 : Str) : Nat → Option Nat
  | 0 => none
  | 1 => none
  | m + 2 =>
      let run := rest3.takeWhile isTldCh
      if m + 2 ≤ run.length &&
         boundaryBetween (run.get? (m + 1)) ((rest3.drop (m + 2)).head?) then
        some (m + 2)
      else tldSearch rest3 (m + 1)

/-- Backtracking search over the split of `[A-Za-z0-9.-]+\.<tld>`: try the
longest domain run first, requiring a literal dot right after it. -/
def domSearch (rest2 : Str) : Nat → Option (Nat × Nat)
  | 0 => none
  | j + 1 =>
      (match rest2.drop (j + 1) with
       | '.' :: rest3 =>
           match tldSearch rest3 (rest3.takeWhile isTldCh).length with
           | some m => some (j + 1, m)
           | none => domSearch rest2 j
       | _ => domSearch rest2 j)

/-- Try the email regex anchored at the current position (leading `\b`
relative to `prev`). -/
def emailAt (prev : Option Char) (t : Str) : Option Str :=
  let loc := t.takeWhile isEmailLocalCh
  if loc.isEmpty then none
  else if !boundaryBetween prev loc.head? then none
  else
    match t.drop loc.length with
    | '@' :: rest2 =>
        match domSearch rest2 (rest2.takeWhile isEmailDomCh).length with
        | some (j, m) =>
            some (loc ++ ['@'] ++ rest2.take j ++ ['.'] ++ (rest2.drop (j + 1)).take m)
        | none => none
    | _ => none

/-- Leftmost scan for the email regex
`/\b[A-Za-z0-9._%+-]+@[A-Za-z0-9.-]+\.[A-Z|a-z]{2,}\b/`. -/
def scanEmail : Option Char → Str → Option Str
  | _, [] => none
  | prev, c :: rest =>
      match emailAt prev (c :: rest) with
      | some m => some m
      | none => scanEmail (some c) rest

/-- Model of `line.match(emailRegex)` returning the first match. -/
def emailFirstMatch (line : Str) : Option Str := scanEmail none line

/-- Parser step: consume one character satisfying `p`. -/
def pCls (p : Char → Bool) (t : Str) : Option Str :=
  match t with
  | c :: r => if p c then some r else none
  | [] => none

/-- Parser step: consume one literal character. -/
def pChar (c : Char) (t : Str) : Option Str := pCls (fun d => d == c) t

/-- Parser step: consume exactly `n` digits. -/
def pDigits : Nat → Str → Option Str
  | 0, t => some t
  | n + 1, t => pCls Char.isDigit t >>= pDigits n

/-- Greedy optional element: try consuming, else continue without. -/
def pOpt (step : Str → Option Str) (k : Str → Option Str) (t : Str) : Option Str :=
  (step t >>= k) <|> k t

/-- Greedy `\d{1,3}`: try three digits, then two, then one. -/
def pRep13 (k : Str → Option Str) (t : Str) : Option Str :=
  (pDigits 3 t >>= k) <|> (pDigits 2 t >>= k) <|> (pDigits 1 t >>= k)

/-- The separator class `[-.\s]` of the phone regex. -/
def sepCh (c : Char) : Bool := c == '-' || c == '.' || isWsChar c

/-- The phone regex
`/(\+?\d{1,3}[-.\s]?)?\(?\d{3}\)?[-.\s]?\d{3}[-.\s]?\d{4}/` anchored at the
current position, returning the remaining input on success. -/
def phoneAt (t : Str) : Option Str :=
  let core : Str → Option Str := fun t0 =>
    pOpt (pChar '(')
      (fun t1 => pDigits 3 t1 >>= fun t2 =>
        pOpt (pChar ')')
          (fun t3 => pOpt (pCls sepCh)
            (fun t4 => pDigits 3 t4 >>= fun t5 =>
              pOpt (pCls sepCh) (fun t6 => pDigits 4 t6) t5) t3) t2) t0
  let grp : Str → Option Str := fun t0 =>
    pOpt (pChar '+') (fun t1 => pRep13 (fun t2 => pOpt (pCls sepCh) core t2) t1) t0
  grp t <|> core t

/-- Leftmost scan for the phone regex, returning the matched text. -/
def scanPhone : Str → Option Str
  | [] => none
  | c :: rest =>
      match phoneAt (c :: rest) with
      | some rem => some ((c :: rest).take ((c :: rest).length - rem.length))
      | none => scanPhone rest

/-- Model of `line.match(phoneRegex)` returning the first match. -/
def phoneFirstMatch (line : Str) : Option Str := scanPhone line

/-- Case-insensitive literal, returning the remaining input. -/
def pLitCI (lit : Str) (t : Str) : Option Str :=
  if lit.isPrefixOf (lowerStr t) then some (t.drop lit.length) else none

/-- The LinkedIn regex
`/(?:https?:\/\/)?(?:www\.)?linkedin\.com\/in\/[\w-]+/i` anchored at the
current position, returning the remaining input on success. -/
def linkedinAt (t : Str) : Option Str :=
  let core : Str → Option Str := fun t0 =>
    pLitCI (strL "linkedin.com/in/") t0 >>= fun t1 =>
      let run := t1.takeWhile (fun c => isWordCh c || c == '-')
      if run.isEmpty then none else some (t1.drop run.length)
  let www : Str → Option Str := fun t0 => pOpt (pLitCI (strL "www.")) core t0
  pOpt (fun t0 => pLitCI (strL "http") t0 >>= fun t1 =>
         pOpt (pLitCI (strL "s")) (pLitCI (strL "://")) t1) www t

/-- Leftmost scan for the LinkedIn regex, returning the matched text with its
original casing. -/
def scanLinkedin : Str → Option Str
  | [] => none
  | c :: rest =>
      match linkedinAt (c :: rest) with
      | some rem => some ((c :: rest).take ((c :: rest).length - rem.length))
      | none => scanLinkedin rest

/-- Model of `line.match(linkedinRegex)` returning the first match. -/
def linkedinFirstMatch (line : Str) : Option Str := scanLinkedin line

/-- Contact record as initialised by `parseResumeTextFallback` (all four
fields start as the empty string). -/
structure ContactInfo where
  name : Str := []
  email : Str := []
  phone : Str := []
  location : Str := []
deriving DecidableEq, Repr

/-- The flattened keyword list `Object.values(sectionKeywords).flat()` used
by the name-extraction guard. -/
def allSectionKeywords : List Str := sectionOrder.flatMap sectionKeywords

/-- Contact-information updates of one main-loop iteration (the only fields
this block of `parseResumeTextFallback` writes are on
`parsed.contact_information`). -/
def contactCompute (ci : ContactInfo) (i : Nat) (line : Str) : ContactInfo :=
  let lowerLine := lowerStr line
  let ci :=
    if i < 5 then
      let ci :=
        match emailFirstMatch line with
        | some m => if ci.email.isEmpty then { ci with email := m } else ci
        | none => ci
      let ci :=
        match phoneFirstMatch line with
        | some m => if ci.phone.isEmpty then { ci with phone := m } else ci
        | none => ci
      match linkedinFirstMatch line with
      | some m => if ci.location.isEmpty then { ci with location := m } else ci
      | none => ci
    else ci
  if i == 0 && ci.name.isEmpty && !(allSectionKeywords.any (fun kw => hasSub lowerLine kw)) then
    { ci with name := line }
  else ci

/-- The `_raw_sections` bag: verbatim per-section content, absent until the
section is first flushed. -/
structure RawSections where
  objective : Option Str := none
  skills : Option Str := none
  education : Option Str := none
  experience : Option Str := none
  projects : Option Str := none
  certifications : Option Str := none
  languages : Option Str := none
deriving DecidableEq, Repr

/-- Read a raw section by kind. -/
def RawSections.get (r : RawSections) : SectionKind → Option Str
  | .objective => r.objective
  | .skills => r.skills
  | .education => r.education
  | .experience => r.experience
  | .projects => r.projects
  | .certifications => r.certifications
  | .languages => r.languages

/-- Write a raw section by kind. -/
def RawSections.setSec (r : RawSections) : SectionKind → Str → RawSections
  | .objective, v => { r with objective := some v }
  | .skills, v => { r with skills := some v }
  | .education, v => { r with education := some v }
  | .experience, v => { r with experience := some v }
  | .projects, v => { r with projects := some v }
  | .certifications, v => { r with certifications := some v }
  | .languages, v => { r with languages := some v }

/-- The `ResumeData` record as built by `parseResumeTextFallback`. -/
structure ParsedResume where
  objective_or_summary : Option Str := none
  skills_or_tech_stack : List Str := []
  education : List EducationEntry := []
  experience : List ExperienceEntry := []
  projects : List ProjectEntry := []
  certifications : List Str := []
  languages : List Str := []
  contact_information : ContactInfo := {}
  rawSections : RawSections := {}
deriving DecidableEq, Repr

/-- Model of `processSectionBuffer` (src/unnamed/part_002, lines 346-393).
For an unknown/empty section label the JavaScript only initialises the
`_raw_sections` bag and stores nothing, which is the identity in this model. -/
def processSectionBuffer (p : ParsedResume) (sec : Option SectionKind) (buffer : List Str) :
    ParsedResume :=
  let content := joinNl buffer
  match sec with
  | none => p
  | some .objective =>
      { p with objective_or_summary := some content,
               rawSections := { p.rawSections with objective := some content } }
  | some .skills =>
      { p with rawSections := { p.rawSections with skills := some content },
               skills_or_tech_stack := extractSkills buffer }
  | some .education =>
      { p with rawSections := { p.rawSections with education := some content },
               education := extractEducation buffer }
  | some .experience =>
      { p with rawSections := { p.rawSections with experience := some content },
               experience := extractExperience buffer }
  | some .projects =>
      { p with rawSections := { p.rawSections with projects := some content },
               projects := extractProjects buffer }
  | some .certifications =>
      { p with rawSections := { p.rawSections with certifications := some content },
               certifications := buffer.filter (fun l => !(jsTrim l).isEmpty) }
  | some .languages =>
      { p with rawSections := { p.rawSections with languages := some content },
               languages := buffer.filter (fun l => !(jsTrim l).isEmpty) }

/-- Mutable state of the main segmentation loop. -/
structure ScanState where
  parsed : ParsedResume := {}
  currentSection : Option SectionKind := none
  buffer : List Str := []
deriving Repr

/-- One iteration of the inner `for (const [section, keywords] of
Object.entries(sectionKeywords))` loop: on a header match, flush a non-empty
buffer to the previous section and make `section` current.  The source's
`continue` continues this inner loop, so later matching sections run too. -/
def headerFoldStep (line : Str) (st : ScanState × Bool) (s : SectionKind) : ScanState × Bool :=
  let (st0, found) := st
  if sectionHeaderTest s line then
    ({ parsed := if st0.buffer.isEmpty then st0.parsed
                 else processSectionBuffer st0.parsed st0.currentSection st0.buffer,
       currentSection := some s, buffer := [] }, true)
  else (st0, found)

/-- One iteration of the main line loop of `parseResumeTextFallback`. -/
def processLine (st : ScanState) (i : Nat) (rawLine : Str) : ScanState :=
  let line := jsTrim rawLine
  if line.isEmpty then st
  else
    let st1 : ScanState :=
      { st with parsed :=
          { st.parsed with contact_information :=
              contactCompute st.parsed.contact_information i line } }
    let res := sectionOrder.foldl (headerFoldStep line) (st1, false)
    if !res.2 then { res.1 with buffer := res.1.buffer ++ [line] } else res.1

/-- `text.split('\n').filter(line => line.trim())`. -/
def candidateLines (text : Str) : List Str :=
  (splitNl text).filter (fun l => !(jsTrim l).isEmpty)

/-- The main loop of `parseResumeTextFallback` over the filtered lines. -/
def segmentScan (text : Str) : ScanState :=
  ((candidateLines text).enum).foldl (fun st p => processLine st p.1 p.2) {}

/-- The end-of-input flush of `parseResumeTextFallback`. -/
def finishScan (st : ScanState) : ParsedResume :=
  if st.buffer.isEmpty then st.parsed
  else processSectionBuffer st.parsed st.currentSection st.buffer

/-- Tier-1 test of the fallback scanner: a line containing a skills keyword
that is reasonably short (or equal to / starting with the keyword). -/
def tier1Test (l : Str) : Bool :=
  let low := jsTrim (lowerStr l)
  (sectionKeywords .skills).any (fun kw =>
    hasSub low kw && (decide (l.length < 150) || low == kw || startsW kw low))

/-- Whether a trimmed line looks like the header of a section other than
skills (tier-1 collection stops there). -/
def isNewSectionLine (t : Str) : Bool :=
  sectionOrder.any (fun s =>
    decide (s ≠ SectionKind.skills) &&
    (sectionKeywords s).any (fun kw => hasSub (lowerStr t) kw) &&
    decide (t.length < 100))

/-- First non-blank line of the remainder (trimmed), as tier-1's look-ahead
computes it. -/
def firstNonBlank : List Str → Option Str
  | [] => none
  | l :: rest =>
      let t := jsTrim l
      if t.isEmpty then firstNonBlank rest else some t

/-- Tier-1 collection loop: gather trimmed non-blank lines after the loose
skills header until a different section's header-looking line (with the
blank-line look-ahead of the source). -/
def collectSkillsLines : List Str → List Str → List Str
  | [], acc => acc.reverse
  | l :: rest, acc =>
      let t := jsTrim l
      if t.isEmpty then
        if !acc.isEmpty then
          match firstNonBlank rest with
          | some nx => if isNewSectionLine nx then acc.reverse else collectSkillsLines rest acc
          | none => collectSkillsLines rest acc
        else collectSkillsLines rest acc
      else if isNewSectionLine t then acc.reverse
      else collectSkillsLines rest (t :: acc)

/-- The fixed technology keyword list of the tier-2 whole-document sweep. -/
def techKeywords28 : List Str :=
  ["javascript", "typescript", "python", "java", "c++", "c#", "php", "ruby", "go", "rust",
   "react", "angular", "vue", "node", "express", "django", "flask", "spring",
   "html", "css", "sql", "mongodb", "postgresql", "mysql", "aws", "azure", "docker",
   "kubernetes"].map strL

/-- Whether the sweep pattern for this keyword carries a trailing `\b`
(the special-cased `/\bc\+\+/` and `/\bc#/` patterns do not). -/
def wbNeedsTrail (kw : Str) : Bool := kw != strL "c++" && kw != strL "c#"

/-- The keyword matches at the current position (case-insensitively), with a
trailing word boundary when required. -/
def wbMatchHere (kw : Str) (trail : Bool) (t : Str) : Bool :=
  kw.isPrefixOf (lowerStr t) &&
  (!trail || (match t.drop kw.length with | [] => true | c :: _ => !isWordCh c))

/-- Leftmost scan for a word-boundary keyword occurrence, returning the
matched text with its original casing. -/
def wbScan (kw : Str) (trail : Bool) : Option Char → Str → Option Str
  | _, [] => none
  | prev, c :: rest =>
      if (match prev with | none => true | some p => !isWordCh p) &&
         wbMatchHere kw trail (c :: rest) then
        some ((c :: rest).take kw.length)
      else wbScan kw trail (some c) rest

/-- First word-boundary occurrence of a sweep keyword in the text. -/
def wbFind (kw text : Str) : Option Str := wbScan kw (wbNeedsTrail kw) none text

/-- The tier-2 sweep: collect the first literal occurrence of each keyword
present in the text, in keyword-list order. -/
def tier2Sweep (text : Str) : List Str :=
  techKeywords28.foldl
    (fun acc kw => match wbFind kw text with | some m => acc ++ [m] | none => acc) []

/-- Model of the fallback skill-search block of `parseResumeTextFallback`
(src/unnamed/part_002, lines 222-341). -/
def fallbackSkills (p : ParsedResume) (originalText : Str) : ParsedResume :=
  if p.skills_or_tech_stack.isEmpty &&
     (match p.rawSections.skills with
      | none => true
      | some s => (jsTrim s).isEmpty) then
    let allLines := splitNl originalText
    match allLines.findIdx? tier1Test with
    | some idx =>
        let skillsLines := collectSkillsLines (allLines.drop (idx + 1)) []
        if !skillsLines.isEmpty then
          { p with rawSections := { p.rawSections with skills := some (joinNl skillsLines) },
                   skills_or_tech_stack := extractSkills skillsLines }
        else p
    | none =>
        let foundSkills := tier2Sweep originalText
        if !foundSkills.isEmpty then
          let raw2 := { p.rawSections with skills := some (joinSep (strL ", ") foundSkills) }
          { p with rawSections := raw2, skills_or_tech_stack := foundSkills }
        else p
  else p

/-- Model of `parseResumeTextFallback` (src/unnamed/part_002, lines 111-344):
segment the filtered lines, flush the final buffer, then run the fallback
skill scanner over the original text. -/
def parseResumeTextFallback (text : Str) : ParsedResume :=
  fallbackSkills (finishScan (segmentScan text)) text

/-- The net header resolution of one line in the enhanced segmenter: the
inner section loop overwrites `currentSection` at every match (its `continue`
continues the section loop), so the fold keeps the last matching kind. -/
def resolveHeader (line : Str) : Option SectionKind :=
  sectionOrder.foldl (fun a s => if sectionHeaderTest s line then some s else a) none

/-- Claim-side resolution: the first matching kind in enumeration order. -/
def firstMatchHeader (line : Str) : Option SectionKind :=
  sectionOrder.find? (fun s => sectionHeaderTest s line)

theorem foldl_lastMatch_init (test : SectionKind → Bool) (l : List SectionKind)
    (acc : Option SectionKind) :
    l.foldl (fun a s => if test s then some s else a) acc =
      match l.foldl (fun a s => if test s then some s else a) none with
      | none => acc
      | some k => some k := by
  induction l generalizing acc with
  | nil => simp
  | cons s rest ih =>
    by_cases h : test s
    · simp only [List.foldl_cons, h, if_pos]
      rw [ih (some s)]
      cases rest.foldl (fun a s => if test s then some s else a) none <;> simp
    · simp only [List.foldl_cons, h, if_neg, Bool.false_eq_true, not_false_iff, ite_false]
      exact ih acc

theorem foldl_lastMatch_eq_reverse_find (test : SectionKind → Bool) (l : List SectionKind) :
    l.foldl (fun a s => if test s then some s else a) none = l.reverse.find? test := by
  induction l with
  | nil => simp
  | cons s rest ih =>
    rw [List.foldl_cons, List.reverse_cons, List.find?_append]
    by_cases h : test s
    · simp only [h, if_pos]
      rw [foldl_lastMatch_init _ rest (some s), ih]
      cases rest.reverse.find? test <;> simp [List.find?, h]
    · simp only [h, if_neg, Bool.false_eq_true, not_false_iff, ite_false]
      rw [ih]
      cases rest.reverse.find? test <;> simp [List.find?, h]

theorem headerFold_char (line : Str) (secs : List SectionKind) (st : ScanState) (found : Bool) :
    secs.foldl (headerFoldStep line) (st, found) =
      match secs.foldl (fun a s => if sectionHeaderTest s line then some s else a) none with
      | none => (st, found)
      | some k =>
          ({ parsed := if st.buffer.isEmpty then st.parsed
                       else processSectionBuffer st.parsed st.currentSection st.buffer,
             currentSection := some k, buffer := [] }, true) := by
  induction secs generalizing st found with
  | nil => rfl
  | cons s rest ih =>
    by_cases h : sectionHeaderTest s line
    · simp only [List.foldl_cons, headerFoldStep, h, if_pos]
      rw [ih]
      rw [foldl_lastMatch_init _ rest (some s)]
      cases rest.foldl (fun a s => if sectionHeaderTest s line then some s else a) none <;> simp
    · simp only [List.foldl_cons, headerFoldStep, h, Bool.false_eq_true, not_false_iff,
        ite_false, if_neg]
      exact ih st found

theorem sectionHeaderTest_nil (s : SectionKind) : sectionHeaderTest s [] = false := by
  cases s <;> decide

theorem resolveHeader_nil : resolveHeader [] = none := by decide

theorem processLine_char (st : ScanState) (i : Nat) (rawLine : Str)
    (h : (jsTrim rawLine).isEmpty = false) :
    processLine st i rawLine =
      match resolveHeader (jsTrim rawLine) with
      | some k =>
          { parsed :=
              if st.buffer.isEmpty then
                { st.parsed with contact_information :=
                    contactCompute st.parsed.contact_information i (jsTrim rawLine) }
              else
                processSectionBuffer
                  { st.parsed with contact_information :=
                      contactCompute st.parsed.contact_information i (jsTrim rawLine) }
                  st.currentSection st.buffer,
            currentSection := some k, buffer := [] }
      | none =>
          { parsed :=
              { st.parsed with contact_information :=
                  contactCompute st.parsed.contact_information i (jsTrim rawLine) },
            currentSection := st.currentSection, buffer := st.buffer ++ [jsTrim rawLine] } := by
  simp only [processLine, h, Bool.false_eq_true, ite_false]
  rw [headerFold_char]
  have hres : (sectionOrder.foldl
      (fun a s => if sectionHeaderTest s (jsTrim rawLine) then some s else a) none) =
      resolveHeader (jsTrim rawLine) := rfl
  rw [hres]
  cases resolveHeader (jsTrim rawLine) <;> simp

/-- Specification-side segmentation state (amended claim C1): current
section, pending buffer, closed raw sections. -/
structure SegSt where
  cur : Option SectionKind := none
  buf : List Str := []
  out : RawSections := {}
deriving Repr

/-- Close the pending buffer into the raw-section map (a non-empty buffer is
stored under the current section; nothing is stored otherwise). -/
def specFlush (out : RawSections) (cur : Option SectionKind) (buf : List Str) : RawSections :=
  match cur with
  | some k => if buf.isEmpty then out else out.setSec k (joinNl buf)
  | none => out

/-- Specification-side transition: a header line closes the buffer and
activates the resolved kind; any other line is buffered. -/
def specStep (st : SegSt) (line : Str) : SegSt :=
  match resolveHeader line with
  | some k => { cur := some k, buf := [], out := specFlush st.out st.cur st.buf }
  | none => { st with buf := st.buf ++ [line] }

/-- Specification-side raw sections of a document: run the clean segmentation
machine over the trimmed candidate lines and close the final buffer. -/
def specSegRaw (text : Str) : RawSections :=
  let fin := ((candidateLines text).map jsTrim).foldl specStep {}
  specFlush fin.out fin.cur fin.buf

theorem get_setSec (r : RawSections) (s k : SectionKind) (v : Str) :
    (r.setSec s v).get k = if k = s then some v else r.get k := by
  cases s <;> cases k <;> simp [RawSections.setSec, RawSections.get]

theorem raw_psb_some (p : ParsedResume) (s : SectionKind) (buf : List Str) (k : SectionKind) :
    (processSectionBuffer p (some s) buf).rawSections.get k =
      if k = s then some (joinNl buf) else p.rawSections.get k := by
  cases s <;> cases k <;> simp [processSectionBuffer, RawSections.get]

theorem raw_psb_none (p : ParsedResume) (buf : List Str) (k : SectionKind) :
    (processSectionBuffer p none buf).rawSections.get k = p.rawSections.get k := rfl

theorem raw_flush_eq (p : ParsedResume) (out : RawSections) (cur : Option SectionKind)
    (buf : List Str) (hpo : ∀ k, p.rawSections.get k = out.get k) (k : SectionKind) :
    (if buf.isEmpty then p else processSectionBuffer p cur buf).rawSections.get k =
      (specFlush out cur buf).get k := by
  by_cases hb : buf.isEmpty
  · simp only [hb, ite_true]
    cases cur with
    | none => exact hpo k
    | some s => simp [specFlush, hb, hpo k]
  · simp only [hb, Bool.false_eq_true, ite_false]
    cases cur with
    | none => rw [raw_psb_none]; exact hpo k
    | some s =>
        rw [raw_psb_some]
        simp only [specFlush, hb, Bool.false_eq_true, ite_false]
        rw [get_setSec]
        by_cases hk : k = s <;> simp [hk, hpo k]

theorem dropWhile_head_not {p : Char → Bool} {l : Str} {c : Char} {cs : Str}
    (h : l.dropWhile p = c :: cs) : p c = false := by
  induction l with
  | nil => simp [List.dropWhile] at h
  | cons a l ih =>
    by_cases ha : p a
    · rw [List.dropWhile_cons_of_pos ha] at h; exact ih h
    · rw [List.dropWhile_cons_of_neg ha] at h
      cases h
      exact Bool.eq_false_iff.mpr ha

theorem jsTrim_has_nonws {s : Str} (h : (jsTrim s).isEmpty = false) :
    ∃ c ∈ jsTrim s, isWsChar c = false := by
  unfold jsTrim at *
  rcases hd : (s.dropWhile isWsChar).reverse.dropWhile isWsChar with _ | ⟨c, cs⟩
  · rw [hd] at h; simp at h
  · exact ⟨c, by simp, dropWhile_head_not hd⟩

theorem mem_dropWhile_of_not {p : Char → Bool} {l : Str} {c : Char}
    (hm : c ∈ l) (hc : p c = false) : c ∈ l.dropWhile p := by
  induction l with
  | nil => simp at hm
  | cons a l ih =>
    by_cases ha : p a
    · rw [List.dropWhile_cons_of_pos ha]
      rcases List.mem_cons.mp hm with rfl | hm2
      · rw [ha] at hc; simp at hc
      · exact ih hm2
    · rw [List.dropWhile_cons_of_neg ha]
      exact hm

theorem mem_jsTrim_of_not {s : Str} {c : Char} (hm : c ∈ s) (hc : isWsChar c = false) :
    c ∈ jsTrim s := by
  unfold jsTrim
  rw [List.mem_reverse]
  apply mem_dropWhile_of_not _ hc
  rw [List.mem_reverse]
  exact mem_dropWhile_of_not hm hc

theorem jsTrim_nonempty_of_nonws {s : Str} {c : Char} (hm : c ∈ s) (hc : isWsChar c = false) :
    (jsTrim s).isEmpty = false := by
  have := mem_jsTrim_of_not hm hc
  cases hj : jsTrim s with
  | nil => rw [hj] at this; simp at this
  | cons a l => simp

theorem mem_joinNl_head {x : Char} {l : Str} {rest : List Str} (hm : x ∈ l) :
    x ∈ joinNl (l :: rest) := by
  cases rest with
  | nil => simpa [joinNl, List.intercalate] using hm
  | cons r rs =>
      simp only [joinNl, List.intercalate, List.intersperse, List.flatten]
      exact List.mem_append.mpr (Or.inl hm)

/-- Loop invariant tying the full scanner state to the clean
specification-side segmentation state. -/
def ScanInv (st : ScanState) (sp : SegSt) : Prop :=
  st.currentSection = sp.cur ∧ st.buffer = sp.buf ∧
  (∀ k, st.parsed.rawSections.get k = sp.out.get k) ∧
  (∀ l ∈ sp.buf, ∃ c ∈ l, isWsChar c = false) ∧
  (∀ k c, sp.out.get k = some c → ∃ d ∈ c, isWsChar d = false)

theorem specFlush_nonblank {out : RawSections} {cur : Option SectionKind} {buf : List Str}
    (hout : ∀ k c, out.get k = some c → ∃ d ∈ c, isWsChar d = false)
    (hbuf : ∀ l ∈ buf, ∃ c ∈ l, isWsChar c = false) :
    ∀ k c, (specFlush out cur buf).get k = some c → ∃ d ∈ c, isWsChar d = false := by
  intro k c hc
  cases cur with
  | none => exact hout k c hc
  | some s =>
      by_cases hb : buf.isEmpty
      · simp only [specFlush, hb, ite_true] at hc
        exact hout k c hc
      · simp only [specFlush, hb, Bool.false_eq_true, ite_false] at hc
        rw [get_setSec] at hc
        by_cases hk : k = s
        · rw [if_pos hk] at hc
          cases hc
          cases buf with
          | nil => simp at hb
          | cons l rest =>
              obtain ⟨d, hd, hdw⟩ := hbuf l (List.mem_cons_self l rest)
              exact ⟨d, mem_joinNl_head hd, hdw⟩
        · rw [if_neg hk] at hc
          exact hout k c hc

theorem scanInv_step {st : ScanState} {sp : SegSt} (i : Nat) (rawLine : Str)
    (h : (jsTrim rawLine).isEmpty = false) (inv : ScanInv st sp) :
    ScanInv (processLine st i rawLine) (specStep sp (jsTrim rawLine)) := by
  obtain ⟨h1, h2, h3, h4, h5⟩ := inv
  rw [processLine_char st i rawLine h]
  unfold specStep
  cases hr : resolveHeader (jsTrim rawLine) with
  | some k =>
      refine ⟨rfl, rfl, ?_, by simp, ?_⟩
      · intro k'
        have hpo : ∀ k'',
            ({ st.parsed with contact_information :=
                contactCompute st.parsed.contact_information i (jsTrim rawLine)
              } : ParsedResume).rawSections.get k'' = sp.out.get k'' := fun k'' => h3 k''
        have hmain := raw_flush_eq _ sp.out st.currentSection st.buffer hpo k'
        show _ = (specFlush sp.out sp.cur sp.buf).get k'
        rw [← h1, ← h2]
        exact hmain
      · show ∀ k c, (specFlush sp.out sp.cur sp.buf).get k = some c → _
        exact specFlush_nonblank h5 h4
  | none =>
      refine ⟨h1, by rw [h2], h3, ?_, h5⟩
      intro l hl
      rcases List.mem_append.mp hl with hl2 | hl2
      · exact h4 l hl2
      · rcases List.mem_singleton.mp hl2 with rfl
        exact jsTrim_has_nonws h

theorem scan_align (ls : List Str) : ∀ (n : Nat) (st : ScanState) (sp : SegSt),
    (∀ l ∈ ls, (jsTrim l).isEmpty = false) → ScanInv st sp →
    ScanInv ((ls.enumFrom n).foldl (fun s p => processLine s p.1 p.2) st)
            ((ls.map jsTrim).foldl specStep sp) := by
  induction ls with
  | nil => intro n st sp _ inv; exact inv
  | cons l rest ih =>
      intro n st sp hl inv
      simp only [List.enumFrom, List.map, List.foldl_cons]
      exact ih (n + 1) _ _ (fun l' hl' => hl l' (List.mem_cons_of_mem _ hl'))
        (scanInv_step n l (hl l (List.mem_cons_self _ _)) inv)

theorem scanInv_init : ScanInv {} ({} : SegSt) := by
  refine ⟨rfl, rfl, fun k => ?_, by simp, fun k c hc => ?_⟩
  · cases k <;> rfl
  · exfalso; cases k <;> simp [RawSections.get] at hc

theorem candidateLines_nonblank (text : Str) :
    ∀ l ∈ candidateLines text, (jsTrim l).isEmpty = false := by
  intro l hl
  have := (List.mem_filter.mp hl).2
  simpa using this

theorem scanInv_full (text : Str) :
    ScanInv (segmentScan text) (((candidateLines text).map jsTrim).foldl specStep {}) := by
  have h := scan_align (candidateLines text) 0 {} {} (candidateLines_nonblank text) scanInv_init
  exact h

theorem segment_raw_eq (text : Str) (k : SectionKind) :
    (finishScan (segmentScan text)).rawSections.get k = (specSegRaw text).get k := by
  obtain ⟨h1, h2, h3, h4, h5⟩ := scanInv_full text
  unfold finishScan specSegRaw
  rw [h1, h2]
  exact raw_flush_eq (segmentScan text).parsed _ _ _ h3 k

theorem specSegRaw_nonblank (text : Str) (k : SectionKind) (c : Str)
    (h : (specSegRaw text).get k = some c) : ∃ d ∈ c, isWsChar d = false := by
  obtain ⟨h1, h2, h3, h4, h5⟩ := scanInv_full text
  unfold specSegRaw at h
  exact specFlush_nonblank h5 h4 k c h

theorem raw_set_skills_get (r : RawSections) (v : Option Str) (k : SectionKind)
    (hk : k ≠ SectionKind.skills) :
    ({ r with skills := v } : RawSections).get k = r.get k := by
  cases k <;> first | rfl | exact absurd rfl hk

theorem fallback_raw_other (p : ParsedResume) (t : Str) (k : SectionKind)
    (hk : k ≠ SectionKind.skills) :
    (fallbackSkills p t).rawSections.get k = p.rawSections.get k := by
  simp only [fallbackSkills]
  split
  · split
    · split
      · exact raw_set_skills_get _ _ _ hk
      · rfl
    · split
      · exact raw_set_skills_get _ _ _ hk
      · rfl
  · rfl

theorem fallback_noop_of_raw (p : ParsedResume) (t : Str) (c : Str)
    (hraw : p.rawSections.skills = some c) (hnb : (jsTrim c).isEmpty = false) :
    fallbackSkills p t = p := by
  unfold fallbackSkills
  rw [hraw]
  simp [hnb]

/-- C1 amended, general theorem: for every document and every section kind,
if the clean segmentation model (`specSegRaw`: trimmed non-blank lines
between a resolved header and the next resolved header or end of document,
newline-joined, last block of a kind winning) assigns raw content to a kind,
then `parseResumeTextFallback` stores exactly that content in
`rawSections[kind]`. -/
theorem c1_amended (text : Str) (k : SectionKind) (c : Str)
    (h : (specSegRaw text).get k = some c) :
    (parseResumeTextFallback text).rawSections.get k = some c := by
  have hmid : (finishScan (segmentScan text)).rawSections.get k = some c := by
    rw [segment_raw_eq]; exact h
  unfold parseResumeTextFallback
  by_cases hk : k = SectionKind.skills
  · subst hk
    obtain ⟨d, hd, hdw⟩ := specSegRaw_nonblank text _ c h
    have hnb : (jsTrim c).isEmpty = false := jsTrim_nonempty_of_nonws hd hdw
    rw [fallback_noop_of_raw _ _ c hmid hnb]
    exact hmid
  · rw [fallback_raw_other _ _ _ hk]
    exact hmid

/-- C1 witness document: explicit, uniquely matching headers with already
trimmed, non-blank body lines. -/
def c1wdoc : Str := strL "Skills\nPython\nJava\nEducation\nMIT 2019"

/-- C1: the segmentation pipeline stores the newline-joined text between
recognized headers — witness instance of the amended general theorem on a
document whose body lines are already trimmed and non-blank. -/
theorem c1_amended_witness :
    (specSegRaw c1wdoc).get SectionKind.skills = some (strL "Python\nJava") ∧
    (parseResumeTextFallback c1wdoc).rawSections.get SectionKind.skills =
      some (strL "Python\nJava") :=
  ⟨by decide, c1_amended c1wdoc SectionKind.skills (strL "Python\nJava") (by decide)⟩

/-- C1 counterexample: the buffered lines are trimmed and blank lines are
dropped, so `rawSections.skills` is NOT the byte-for-byte text between the
"Skills" header and the "Education" header (which is "  Python\n\n  Java"). -/
theorem c1_counterexample :
    (parseResumeTextFallback
        (strL "Skills\n  Python\n\n  Java\nEducation\nMIT 2019")).rawSections.get
      SectionKind.skills = some (strL "Python\nJava") ∧
    strL "Python\nJava" ≠ strL "  Python\n\n  Java" := by
  constructor
  · decide
  · decide

/-- Trigger-keyword dictionary of the plain segmenter
(src/src/lib/layoutlmParser.ts, `sectionKeywords`). -/
def plainSectionKeywords : SectionKind → List Str
  | .objective => ["objective", "summary", "profile", "about", "professional summary"].map strL
  | .skills => ["skills", "technical skills", "tech stack", "technologies", "competencies",
      "expertise"].map strL
  | .education => ["education", "academic", "qualification", "degree", "university",
      "college"].map strL
  | .experience => ["experience", "work history", "employment", "professional experience",
      "work", "career"].map strL
  | .projects => ["projects", "personal projects", "portfolio", "project experience"].map strL
  | .certifications => ["certifications", "certificates", "licenses", "certification"].map strL
  | .languages => ["languages", "language proficiency", "language skills"].map strL

/-- Header test of the plain segmenter: keyword containment plus a length
bound (src/src/lib/layoutlmParser.ts, line 153). -/
def plainHeaderTest (s : SectionKind) (line : Str) : Bool :=
  (plainSectionKeywords s).any (fun kw => hasSub (lowerStr line) kw && decide (line.length < 50))

/-- The plain segmenter's inner section loop: it `break`s at the first
matching section, so the first match wins there. -/
def plainFindSection (line : Str) : List SectionKind → Option SectionKind
  | [] => none
  | s :: rest => if plainHeaderTest s line then some s else plainFindSection line rest

/-- Net header resolution of the plain segmenter. -/
def plainResolveHeader (line : Str) : Option SectionKind := plainFindSection line sectionOrder

theorem plainFindSection_eq_find (line : Str) (l : List SectionKind) :
    plainFindSection line l = l.find? (fun s => plainHeaderTest s line) := by
  induction l with
  | nil => rfl
  | cons s rest ih =>
      by_cases h : plainHeaderTest s line
      · simp [plainFindSection, List.find?, h]
      · simp [plainFindSection, List.find?, h, ih]

/-- C2 amended: a line matching at least one keyword dictionary is classified
as a header (the buffer is flushed and cleared), but in the enhanced
segmenter the active section afterwards is the LAST matching kind in the
fixed enumeration order (its inner loop `continue`s over later sections and
overwrites `currentSection`); the plain segmenter variant, whose loop
`break`s, yields the first matching kind. -/
theorem c2_amended (st : ScanState) (i : Nat) (rawLine : Str)
    (hm : resolveHeader (jsTrim rawLine) ≠ none) :
    (processLine st i rawLine).currentSection =
      sectionOrder.reverse.find? (fun s => sectionHeaderTest s (jsTrim rawLine)) ∧
    (processLine st i rawLine).buffer = [] ∧
    ∀ line2 : Str, plainResolveHeader line2 =
      sectionOrder.find? (fun s => plainHeaderTest s line2) := by
  have hnn : (jsTrim rawLine).isEmpty = false := by
    cases hj : jsTrim rawLine with
    | nil => rw [hj] at hm; exact absurd resolveHeader_nil hm
    | cons a l => simp
  rw [processLine_char st i rawLine hnn]
  have hrev : resolveHeader (jsTrim rawLine) =
      sectionOrder.reverse.find? (fun s => sectionHeaderTest s (jsTrim rawLine)) :=
    foldl_lastMatch_eq_reverse_find _ sectionOrder
  cases hr : resolveHeader (jsTrim rawLine) with
  | none => exact absurd hr hm
  | some k =>
      refine ⟨?_, rfl, fun line2 => plainFindSection_eq_find line2 sectionOrder⟩
      rw [← hrev, hr]

/-- C2 witness: the amended theorem applied to the line
"Programming Languages", which matches both the skills dictionary (keyword
"programming languages") and the languages dictionary (keyword
"languages"). -/
theorem c2_amended_witness :
    resolveHeader (jsTrim (strL "Programming Languages")) ≠ none ∧
    ((processLine {} 0 (strL "Programming Languages")).currentSection =
        sectionOrder.reverse.find?
          (fun s => sectionHeaderTest s (jsTrim (strL "Programming Languages"))) ∧
      (processLine {} 0 (strL "Programming Languages")).buffer = [] ∧
      ∀ line2 : Str, plainResolveHeader line2 =
        sectionOrder.find? (fun s => plainHeaderTest s line2)) :=
  ⟨by decide, c2_amended {} 0 (strL "Programming Languages") (by decide)⟩

/-- C2 counterexample: "programming languages" matches the skills dictionary
first in enumeration order, yet the enhanced segmenter resolves the line to
`languages` (the last match), and after parsing
"Programming Languages\nPython" the body line lands in the languages raw
section — not skills as the claim requires. -/
theorem c2_counterexample :
    resolveHeader (strL "programming languages") = some SectionKind.languages ∧
    firstMatchHeader (strL "programming languages") = some SectionKind.skills ∧
    SectionKind.languages ≠ SectionKind.skills ∧
    (processLine {} 0 (strL "Programming Languages")).currentSection =
      some SectionKind.languages ∧
    (parseResumeTextFallback (strL "Programming Languages\nPython")).rawSections.get
      SectionKind.languages = some (strL "Python") := by
  refine ⟨by decide, by decide, by decide, by decide, by decide⟩

theorem tier2_fold_mem (t : Str) (kws : List Str) (acc : List Str) (m : Str)
    (h : (∃ kw ∈ kws, wbFind kw t = some m) ∨ m ∈ acc) :
    m ∈ kws.foldl
      (fun acc kw => match wbFind kw t with | some x => acc ++ [x] | none => acc) acc := by
  induction kws generalizing acc with
  | nil =>
      rcases h with ⟨kw, hk, _⟩ | hacc
      · simp at hk
      · simpa using hacc
  | cons k' rest ih =>
      simp only [List.foldl_cons]
      cases hv : wbFind k' t with
      | some x =>
          rcases h with ⟨kw, hk, hf⟩ | hacc
          · rcases List.mem_cons.mp hk with rfl | hk2
            · rw [hv] at hf
              cases hf
              exact ih _ (Or.inr (by simp))
            · exact ih _ (Or.inl ⟨kw, hk2, hf⟩)
          · exact ih _ (Or.inr (by simp [hacc]))
      | none =>
          rcases h with ⟨kw, hk, hf⟩ | hacc
          · rcases List.mem_cons.mp hk with rfl | hk2
            · rw [hv] at hf; cases hf
            · exact ih _ (Or.inl ⟨kw, hk2, hf⟩)
          · exact ih _ (Or.inr hacc)

theorem isEmpty_false_of_ne_nil {l : List Str} (h : l ≠ []) : l.isEmpty = false := by
  cases l with
  | nil => exact absurd rfl h
  | cons a l => rfl

theorem isEmpty_false_of_ne_nil_chars {l : Str} (h : l ≠ []) : l.isEmpty = false := by
  cases l with
  | nil => exact absurd rfl h
  | cons a l => rfl

/-- C7 amended: (1) the fallback skill scanner is inert whenever structured
skills are non-empty or the raw skills section is non-blank; (2) the tier-2
whole-document sweep runs only when additionally NO line of the document
passes the lenient tier-1 header search, and then every sweep keyword with a
word-boundary occurrence contributes its first literal (original-casing)
match to the skills list; (3) when the triggered tier collects nothing,
skills remains empty, without error. -/
theorem c7_amended :
    (∀ (p : ParsedResume) (t : Str),
      p.skills_or_tech_stack ≠ [] ∨
        (∃ s, p.rawSections.skills = some s ∧ jsTrim s ≠ []) →
      fallbackSkills p t = p) ∧
    (∀ (p : ParsedResume) (t : Str),
      p.skills_or_tech_stack = [] →
      (p.rawSections.skills = none ∨
        ∃ s, p.rawSections.skills = some s ∧ jsTrim s = []) →
      (∀ l ∈ splitNl t, tier1Test l = false) →
      ∀ kw ∈ techKeywords28, ∀ m, wbFind kw t = some m →
        m ∈ (fallbackSkills p t).skills_or_tech_stack) ∧
    (∀ (p : ParsedResume) (t : Str),
      p.skills_or_tech_stack = [] →
      (match (splitNl t).findIdx? tier1Test with
       | some idx => collectSkillsLines ((splitNl t).drop (idx + 1)) [] = []
       | none => tier2Sweep t = []) →
      (fallbackSkills p t).skills_or_tech_stack = []) := by
  refine ⟨?_, ?_, ?_⟩
  · intro p t h
    have hg : (p.skills_or_tech_stack.isEmpty &&
        (match p.rawSections.skills with
         | none => true
         | some s => (jsTrim s).isEmpty)) = false := by
      rcases h with h | ⟨s, hs, hns⟩
      · rw [isEmpty_false_of_ne_nil h]; rfl
      · rw [hs]
        simp [isEmpty_false_of_ne_nil_chars hns]
    simp only [fallbackSkills, hg, Bool.false_eq_true, ite_false]
  · intro p t hsk hraw hno kw hkw m hm
    have hg : (p.skills_or_tech_stack.isEmpty &&
        (match p.rawSections.skills with
         | none => true
         | some s => (jsTrim s).isEmpty)) = true := by
      rw [hsk]
      rcases hraw with hr | ⟨s, hs, hns⟩
      · rw [hr]; rfl
      · rw [hs]; simp [hns]
    have hidx : (splitNl t).findIdx? tier1Test = none := by
      rw [List.findIdx?_eq_none_iff]
      exact hno
    have hmem : m ∈ tier2Sweep t :=
      tier2_fold_mem t techKeywords28 [] m (Or.inl ⟨kw, hkw, hm⟩)
    have hne : tier2Sweep t ≠ [] := by
      intro hcon; rw [hcon] at hmem; simp at hmem
    simp only [fallbackSkills, hg, ite_true, hidx, isEmpty_false_of_ne_nil hne,
      Bool.not_false, ite_true]
    exact hmem
  · intro p t hsk hyield
    by_cases hg : (p.skills_or_tech_stack.isEmpty &&
        (match p.rawSections.skills with
         | none => true
         | some s => (jsTrim s).isEmpty)) = true
    · cases hidx : (splitNl t).findIdx? tier1Test with
      | some idx =>
          rw [hidx] at hyield
          simp only [fallbackSkills, hg, ite_true, hidx, hyield]
          simp [hsk]
      | none =>
          rw [hidx] at hyield
          simp only [fallbackSkills, hg, ite_true, hidx, hyield]
          simp [hsk]
    · rw [Bool.not_eq_true] at hg
      simp only [fallbackSkills, hg, Bool.false_eq_true, ite_false]
      exact hsk

/-- C7 counterexample document: zero recognised section headers, the literal
"C++" present, but one long line containing the skills keyword "software"
passes the lenient tier-1 test, so tier-2 never runs and skills stay empty. -/
def c7doc : Str :=
  strL "C++\nThis line mentions my software career, with several twists and turns, spanning a decade of them plus more."

set_option maxRecDepth 16384 in
/-- C7 counterexample: zero sections are detected for this document and
"C++" occurs literally in the text, yet the tier-2 sweep is not exercised
(tier-1's lenient search matched a line first and collected nothing), so
"C++" does NOT appear in the resulting skills list, refuting the claim. -/
theorem c7_counterexample :
    (parseResumeTextFallback c7doc).rawSections = ({} : RawSections) ∧
    wbFind (strL "c++") c7doc = some (strL "C++") ∧
    (parseResumeTextFallback c7doc).skills_or_tech_stack = [] := by
  refine ⟨by decide, by decide, by decide⟩

/-- Concrete record with one structured skill, for the witness of the first
conjunct of the amended C7 theorem. -/
def c7p1 : ParsedResume := { skills_or_tech_stack := [strL "Python"] }

/-- C7 witness: the three conjuncts of the amended theorem instantiated at
concrete inputs (an inert record; the document "Python and C++" with no
tier-1 line; the empty document). -/
theorem c7_amended_witness :
    fallbackSkills c7p1 [] = c7p1 ∧
    strL "Python" ∈ (fallbackSkills {} (strL "Python and C++")).skills_or_tech_stack ∧
    (fallbackSkills {} []).skills_or_tech_stack = [] :=
  ⟨c7_amended.1 c7p1 [] (Or.inl (by decide)),
   c7_amended.2.1 {} (strL "Python and C++") rfl (Or.inl rfl) (by decide)
     (strL "python") (by decide) (strL "Python") (by decide),
   c7_amended.2.2 {} [] rfl rfl⟩

theorem keepFirst_nil : keepFirst [] = [] := by rw [keepFirst]

theorem keepFirst_cons (x : Str) (xs : List Str) :
    keepFirst (x :: xs) = x :: keepFirst (xs.filter (fun y => y != x)) := by
  rw [keepFirst]

theorem mem_keepFirst : ∀ (l : List Str) (x : Str), x ∈ keepFirst l ↔ x ∈ l
  | [], x => by simp [keepFirst_nil]
  | a :: xs, x => by
      rw [keepFirst_cons]
      by_cases hx : x = a
      · subst hx; simp
      · rw [List.mem_cons, List.mem_cons,
          mem_keepFirst (xs.filter (fun y => y != a)) x]
        simp only [List.mem_filter, bne_iff_ne, ne_eq]
        constructor
        · rintro (rfl | ⟨h1, _⟩)
          · exact absurd rfl hx
          · exact Or.inr h1
        · rintro (rfl | h1)
          · exact absurd rfl hx
          · exact Or.inr ⟨h1, hx⟩
termination_by l _ => l.length
decreasing_by
  simp only [List.length_cons]
  exact Nat.lt_succ_of_le (List.length_filter_le _ _)

theorem keepFirst_nodup : ∀ (l : List Str), (keepFirst l).Nodup
  | [] => by rw [keepFirst_nil]; exact List.nodup_nil
  | a :: xs => by
      rw [keepFirst_cons]
      refine List.nodup_cons.mpr ⟨?_, keepFirst_nodup (xs.filter (fun y => y != a))⟩
      intro hmem
      rw [mem_keepFirst] at hmem
      have := (List.mem_filter.mp hmem).2
      simp at this
termination_by l => l.length
decreasing_by
  simp only [List.length_cons]
  exact Nat.lt_succ_of_le (List.length_filter_le _ _)

theorem keepFirst_of_nodup : ∀ (l : List Str), l.Nodup → keepFirst l = l
  | [], _ => keepFirst_nil
  | a :: xs, h => by
      rw [keepFirst_cons]
      obtain ⟨hna, hxs⟩ := List.nodup_cons.mp h
      have hf : xs.filter (fun y => y != a) = xs := by
        apply List.filter_eq_self.mpr
        intro y hy
        simp only [bne_iff_ne, ne_eq]
        intro hya
        exact hna (hya ▸ hy)
      rw [hf, keepFirst_of_nodup xs hxs]
termination_by l _ => l.length
decreasing_by
  simp only [List.length_cons]
  exact Nat.lt_succ_of_le (Nat.le_refl _)

theorem foldl_jsSetAdd_char : ∀ (s : List Str) (acc : List Str), acc.Nodup →
    s.foldl jsSetAdd acc = acc ++ keepFirst (s.filter (fun y => decide (y ∉ acc))) := by
  intro s
  induction s with
  | nil => intro acc _; simp [keepFirst_nil]
  | cons x s ih =>
      intro acc hacc
      rw [List.foldl_cons]
      by_cases hx : x ∈ acc
      · have hadd : jsSetAdd acc x = acc := by simp [jsSetAdd, hx]
        rw [hadd, ih acc hacc, List.filter_cons]
        simp [hx]
      · have hadd : jsSetAdd acc x = acc ++ [x] := by simp [jsSetAdd, hx]
        have hnodup : (acc ++ [x]).Nodup := by
          simp [List.nodup_append, hacc, hx]
        rw [hadd, ih (acc ++ [x]) hnodup]
        have hfeq : s.filter (fun y => decide (y ∉ acc ++ [x])) =
            (s.filter (fun y => decide (y ∉ acc))).filter (fun y => y != x) := by
          rw [List.filter_filter]
          apply List.filter_congr
          intro y _
          by_cases h1 : y = x
          · subst h1; simp [hx]
          · by_cases h2 : y ∈ acc <;> simp [h1, h2]
        rw [hfeq]
        have hcons : (x :: s).filter (fun y => decide (y ∉ acc)) =
            x :: s.filter (fun y => decide (y ∉ acc)) := by
          rw [List.filter_cons]
          simp [hx]
        rw [hcons, keepFirst_cons, List.append_assoc, List.singleton_append]

theorem setFold_eq_keepFirst (s : List Str) : s.foldl jsSetAdd [] = keepFirst s := by
  rw [foldl_jsSetAdd_char s [] List.nodup_nil]
  simp

theorem foldl_stream_shift {α : Type} (step : List Str → α → List Str)
    (h : ∀ l a, step l a = l ++ step [] a) :
    ∀ (xs : List α) (l0 : List Str), xs.foldl step l0 = l0 ++ xs.foldl step [] := by
  intro xs
  induction xs with
  | nil => intro l0; simp
  | cons x xs ih =>
      intro l0
      rw [List.foldl_cons, ih (step l0 x), h l0 x, List.foldl_cons, ih (step [] x),
        List.append_assoc]

theorem foldl_set_vs_stream {α : Type} (setStep : List Str → α → List Str)
    (strStep : List Str → α → List Str)
    (hshift : ∀ l a, strStep l a = l ++ strStep [] a)
    (hrel : ∀ acc a, setStep acc a = (strStep [] a).foldl jsSetAdd acc) :
    ∀ (xs : List α) (acc : List Str),
      xs.foldl setStep acc = (xs.foldl strStep []).foldl jsSetAdd acc := by
  intro xs
  induction xs with
  | nil => intro acc; rfl
  | cons x xs ih =>
      intro acc
      rw [List.foldl_cons, ih, List.foldl_cons,
        foldl_stream_shift strStep hshift xs (strStep [] x), List.foldl_append, hrel]

theorem strictPart_shift : ∀ (l : List Str) (part : Str),
    (if strictAdmits (skillToken part) then l ++ [skillToken part] else l) =
      l ++ (if strictAdmits (skillToken part) then ([] : List Str) ++ [skillToken part] else []) := by
  intro l part
  by_cases h : strictAdmits (skillToken part) <;> simp [h]

theorem strictLine_shift : ∀ (l : List Str) (line : Str),
    (if skillsSkipLine line then l
     else (splitSkillParts line).foldl
       (fun a part => if strictAdmits (skillToken part) then a ++ [skillToken part] else a) l) =
    l ++ (if skillsSkipLine line then []
          else (splitSkillParts line).foldl
            (fun a part => if strictAdmits (skillToken part) then a ++ [skillToken part] else a)
            []) := by
  intro l line
  by_cases h : skillsSkipLine line
  · simp [h]
  · simp only [h, Bool.false_eq_true, ite_false]
    exact foldl_stream_shift _ (fun l a => strictPart_shift l a) (splitSkillParts line) l

theorem strictLineFold_vs_stream : ∀ (acc : List Str) (line : Str),
    strictLineFold acc line =
      ((if skillsSkipLine line then []
        else (splitSkillParts line).foldl
          (fun a part => if strictAdmits (skillToken part) then a ++ [skillToken part] else a)
          [])).foldl jsSetAdd acc := by
  intro acc line
  unfold strictLineFold
  by_cases h : skillsSkipLine line
  · simp [h]
  · simp only [h, Bool.false_eq_true, ite_false]
    exact foldl_set_vs_stream _ _ (fun l a => strictPart_shift l a)
      (fun acc part => by by_cases hp : strictAdmits (skillToken part) <;> simp [jsSetAdd, hp])
      (splitSkillParts line) acc

theorem strict_set_eq_keepFirst (lines : List Str) :
    lines.foldl strictLineFold [] = keepFirst (strictStream lines) := by
  have h := foldl_set_vs_stream strictLineFold
    (fun acc line => if skillsSkipLine line then acc
      else (splitSkillParts line).foldl
        (fun a part => if strictAdmits (skillToken part) then a ++ [skillToken part] else a) acc)
    (fun l line => strictLine_shift l line)
    (fun acc line => strictLineFold_vs_stream acc line)
    lines []
  rw [h]
  exact setFold_eq_keepFirst _

theorem keepFirst_append_absorb (a b : List Str) :
    keepFirst (keepFirst a ++ b) = keepFirst (a ++ b) := by
  rw [← setFold_eq_keepFirst (keepFirst a ++ b), List.foldl_append,
    setFold_eq_keepFirst (keepFirst a), keepFirst_of_nodup _ (keepFirst_nodup a),
    ← setFold_eq_keepFirst a, ← List.foldl_append, setFold_eq_keepFirst]

theorem keepFirst_append_decompose (a b : List Str) :
    keepFirst (a ++ b) =
      keepFirst a ++ keepFirst (b.filter (fun y => decide (y ∉ a))) := by
  rw [← setFold_eq_keepFirst (a ++ b), List.foldl_append, setFold_eq_keepFirst a,
    foldl_jsSetAdd_char b (keepFirst a) (keepFirst_nodup a)]
  congr 2
  apply List.filter_congr
  intro y _
  rw [decide_eq_decide]
  exact not_congr (mem_keepFirst a y)

/-- C8: for every buffer, the extracted skill list is duplicate-free under
case-sensitive exact equality, equals the first-occurrence de-duplication of
the strict keyword-pass token stream followed (when the strict pass kept
fewer than 3 skills) by the lenient pass token stream, and therefore lists
keyword-confirmed entries first, each group in first-seen order. -/
theorem c8_skills_dedup (lines : List Str) :
    (extractSkills lines).Nodup ∧
    extractSkills lines =
      keepFirst (strictStream lines ++
        (if (keepFirst (strictStream lines)).length < 3 then lenientStream lines else [])) ∧
    extractSkills lines =
      keepFirst (strictStream lines) ++
        keepFirst (((if (keepFirst (strictStream lines)).length < 3 then lenientStream lines
          else []) : List Str).filter (fun y => decide (y ∉ strictStream lines))) := by
  have hstrict : lines.foldl strictLineFold [] = keepFirst (strictStream lines) := by
    have h := strict_set_eq_keepFirst lines
    rwa [strictStream] at h
  have hmain : extractSkills lines =
      keepFirst (strictStream lines ++
        (if (keepFirst (strictStream lines)).length < 3 then lenientStream lines else [])) := by
    unfold extractSkills
    rw [hstrict]
    by_cases hlen : (keepFirst (strictStream lines)).length < 3
    · simp only [hlen, ite_true]
      have : lines.foldl lenientLineFold [] = lenientStream lines := rfl
      rw [this, setFold_eq_keepFirst, keepFirst_append_absorb]
    · simp only [hlen, ite_false]
      rw [List.append_nil]
  refine ⟨?_, hmain, ?_⟩
  · rw [hmain]; exact keepFirst_nodup _
  · rw [hmain, keepFirst_append_decompose]

/-- Dynamic JavaScript value, as far as the responder and normalizer observe
it (numbers are modelled as integers; none of the claims involve fractional
values). -/
inductive JsValue where
  | undefinedJs
  | null
  | bool (b : Bool)
  | num (n : Int)
  | str (s : Str)
  | arr (elems : List JsValue)
  | obj (fields : List (String × JsValue))
deriving Repr

/-- First-wins key lookup on an object literal. -/
def jsLookup : List (String × JsValue) → String → Option JsValue
  | [], _ => none
  | (k, v) :: rest, key => if k == key then some v else jsLookup rest key

/-- Property access on a value that is known not to be null/undefined
(objects yield the stored value or `undefined`; primitives autobox and yield
`undefined` for the keys this code reads). -/
def jsGet (v : JsValue) (k : String) : JsValue :=
  match v with
  | .obj fs => (jsLookup fs k).getD .undefinedJs
  | _ => .undefinedJs

/-- Model of the optional-chaining access `v?.k`. -/
def optChain (v : JsValue) (k : String) : JsValue :=
  match v with
  | .undefinedJs => .undefinedJs
  | .null => .undefinedJs
  | .obj fs => (jsLookup fs k).getD .undefinedJs
  | _ => .undefinedJs

/-- JavaScript truthiness. -/
def truthy : JsValue → Bool
  | .undefinedJs => false
  | .null => false
  | .bool b => b
  | .num n => !(n == 0)
  | .str s => !s.isEmpty
  | .arr _ => true
  | .obj _ => true

/-- Whether a value is `null` or `undefined` (the `??` test). -/
def isNullish : JsValue → Bool
  | .undefinedJs => true
  | .null => true
  | _ => false

/-- Model of `a || b`. -/
def jsOr (a b : JsValue) : JsValue := if truthy a then a else b

/-- Model of `a ?? b`. -/
def jsCoalesce (a b : JsValue) : JsValue := if isNullish a then b else a

/-- Model of `Array.isArray(v) ? v : []`. -/
def asArr : JsValue → List JsValue
  | .arr es => es
  | _ => []

/-- The default contact record of `normalizeParsed` (all four fields the
empty string). -/
def defaultContactJs : JsValue :=
  .obj [("name", .str []), ("email", .str []), ("phone", .str []), ("location", .str [])]

/-- The canonical record produced by `normalizeParsed`: collection fields are
lists, scalar-ish fields stay dynamic. -/
structure ResumeDataN where
  objective_or_summary : JsValue
  skills_or_tech_stack : List JsValue
  education : List JsValue
  experience : List JsValue
  projects : List JsValue
  certifications : List JsValue
  languages : List JsValue
  contact_information : JsValue
  raw_sections : JsValue
  raw_text : JsValue
deriving Repr

/-- Model of `normalizeParsed` (src/src/lib/chatbot.ts, lines 8-30).  Every
field is read off `parsed` by property access, which in JavaScript throws a
TypeError when `parsed` is null or undefined; otherwise the `??` /
`Array.isArray` defaults of the source apply. -/
def normalizeParsed (parsed : JsValue) : Except String ResumeDataN :=
  match parsed with
  | .undefinedJs => .error "TypeError: cannot read properties of undefined"
  | .null => .error "TypeError: cannot read properties of null"
  | v =>
      .ok {
        objective_or_summary := jsCoalesce (jsGet v "objective_or_summary") .null
        skills_or_tech_stack := asArr (jsGet v "skills_or_tech_stack")
        education := asArr (jsGet v "education")
        experience := asArr (jsGet v "experience")
        projects := asArr (jsGet v "projects")
        certifications := asArr (jsGet v "certifications")
        languages := asArr (jsGet v "languages")
        contact_information := jsCoalesce (jsGet v "contact_information") defaultContactJs
        raw_sections := jsCoalesce (jsGet v "_raw_sections") (.obj [])
        raw_text := jsCoalesce (jsGet v "_raw_text") .undefinedJs }

/-- Render the normalized record back as the JSON-ish object shape it has in
JavaScript (every key an own property, `_raw_text` possibly `undefined`). -/
def ResumeDataN.toJs (r : ResumeDataN) : JsValue :=
  .obj [("objective_or_summary", r.objective_or_summary),
        ("skills_or_tech_stack", .arr r.skills_or_tech_stack),
        ("education", .arr r.education),
        ("experience", .arr r.experience),
        ("projects", .arr r.projects),
        ("certifications", .arr r.certifications),
        ("languages", .arr r.languages),
        ("contact_information", r.contact_information),
        ("_raw_sections", r.raw_sections),
        ("_raw_text", r.raw_text)]

theorem jsCoalesce_stable (a b : JsValue) : jsCoalesce (jsCoalesce a b) b = jsCoalesce a b := by
  by_cases h : isNullish a = true
  · simp only [jsCoalesce, h, ite_true]
    by_cases hb : isNullish b = true <;> simp [hb]
  · rw [Bool.not_eq_true] at h
    simp [jsCoalesce, h]

/-- C9 counterexample: `normalizeParsed(null)` throws (property access on
null raises a TypeError), so the Normalizer does not accept EVERY input
value without throwing. -/
theorem c9_counterexample :
    normalizeParsed JsValue.null =
      Except.error "TypeError: cannot read properties of null" := rfl

/-- C9 amended: for every input value other than null and undefined, the
Normalizer returns the full canonical record without throwing: collection
fields are (possibly empty) sequences, a missing or null objective becomes
`null`, a missing or null `contact_information` becomes the contact record
with all four fields the empty string, a missing `_raw_sections` becomes the
empty bag, and a non-array collection input is replaced by the empty
sequence. -/
theorem c9_amended (v : JsValue) (h1 : v ≠ JsValue.null) (h2 : v ≠ JsValue.undefinedJs) :
    ∃ r : ResumeDataN, normalizeParsed v = Except.ok r ∧
      (isNullish (jsGet v "objective_or_summary") = true →
        r.objective_or_summary = JsValue.null) ∧
      (isNullish (jsGet v "contact_information") = true →
        r.contact_information = defaultContactJs) ∧
      (isNullish (jsGet v "_raw_sections") = true → r.raw_sections = JsValue.obj []) ∧
      (∀ es, jsGet v "skills_or_tech_stack" = JsValue.arr es →
        r.skills_or_tech_stack = es) ∧
      ((∀ es, jsGet v "skills_or_tech_stack" ≠ JsValue.arr es) →
        r.skills_or_tech_stack = []) := by
  have hok : normalizeParsed v = Except.ok {
      objective_or_summary := jsCoalesce (jsGet v "objective_or_summary") .null
      skills_or_tech_stack := asArr (jsGet v "skills_or_tech_stack")
      education := asArr (jsGet v "education")
      experience := asArr (jsGet v "experience")
      projects := asArr (jsGet v "projects")
      certifications := asArr (jsGet v "certifications")
      languages := asArr (jsGet v "languages")
      contact_information := jsCoalesce (jsGet v "contact_information") defaultContactJs
      raw_sections := jsCoalesce (jsGet v "_raw_sections") (.obj [])
      raw_text := jsCoalesce (jsGet v "_raw_text") .undefinedJs } := by
    cases v with
    | undefinedJs => exact absurd rfl h2
    | null => exact absurd rfl h1
    | bool b => rfl
    | num n => rfl
    | str s => rfl
    | arr es => rfl
    | obj fs => rfl
  refine ⟨_, hok, ?_, ?_, ?_, ?_, ?_⟩
  · intro h; simp [jsCoalesce, h]
  · intro h; simp [jsCoalesce, h]
  · intro h; simp [jsCoalesce, h]
  · intro es h; simp [h, asArr]
  · intro h
    cases hv : jsGet v "skills_or_tech_stack" with
    | arr es => exact absurd hv (h es)
    | undefinedJs => simp [asArr]
    | null => simp [asArr]
    | bool b => simp [asArr]
    | num n => simp [asArr]
    | str s => simp [asArr]
    | obj fs => simp [asArr]

/-- C9 witness: the amended theorem at the empty object, whose normalization
succeeds with all defaults filled in. -/
theorem c9_amended_witness :
    JsValue.obj [] ≠ JsValue.null ∧ JsValue.obj [] ≠ JsValue.undefinedJs ∧
    ∃ r : ResumeDataN, normalizeParsed (JsValue.obj []) = Except.ok r ∧
      (isNullish (jsGet (JsValue.obj []) "objective_or_summary") = true →
        r.objective_or_summary = JsValue.null) ∧
      (isNullish (jsGet (JsValue.obj []) "contact_information") = true →
        r.contact_information = defaultContactJs) ∧
      (isNullish (jsGet (JsValue.obj []) "_raw_sections") = true →
        r.raw_sections = JsValue.obj []) ∧
      (∀ es, jsGet (JsValue.obj []) "skills_or_tech_stack" = JsValue.arr es →
        r.skills_or_tech_stack = es) ∧
      ((∀ es, jsGet (JsValue.obj []) "skills_or_tech_stack" ≠ JsValue.arr es) →
        r.skills_or_tech_stack = []) :=
  ⟨fun h => JsValue.noConfusion h, fun h => JsValue.noConfusion h,
   c9_amended (JsValue.obj []) (fun h => JsValue.noConfusion h)
     (fun h => JsValue.noConfusion h)⟩

/-- C10: the Normalizer is idempotent — feeding a normalized record (in its
JavaScript object shape) back through `normalizeParsed` returns it
unchanged, so normalized records are fixed points. -/
theorem c10_idempotent (fs : List (String × JsValue)) (r : ResumeDataN)
    (h : normalizeParsed (JsValue.obj fs) = Except.ok r) :
    normalizeParsed r.toJs = Except.ok r := by
  have hr : r = {
      objective_or_summary := jsCoalesce (jsGet (JsValue.obj fs) "objective_or_summary") .null
      skills_or_tech_stack := asArr (jsGet (JsValue.obj fs) "skills_or_tech_stack")
      education := asArr (jsGet (JsValue.obj fs) "education")
      experience := asArr (jsGet (JsValue.obj fs) "experience")
      projects := asArr (jsGet (JsValue.obj fs) "projects")
      certifications := asArr (jsGet (JsValue.obj fs) "certifications")
      languages := asArr (jsGet (JsValue.obj fs) "languages")
      contact_information := jsCoalesce (jsGet (JsValue.obj fs) "contact_information")
        defaultContactJs
      raw_sections := jsCoalesce (jsGet (JsValue.obj fs) "_raw_sections") (.obj [])
      raw_text := jsCoalesce (jsGet (JsValue.obj fs) "_raw_text") .undefinedJs } := by
    have h2 : (Except.ok {
        objective_or_summary := jsCoalesce (jsGet (JsValue.obj fs) "objective_or_summary") .null
        skills_or_tech_stack := asArr (jsGet (JsValue.obj fs) "skills_or_tech_stack")
        education := asArr (jsGet (JsValue.obj fs) "education")
        experience := asArr (jsGet (JsValue.obj fs) "experience")
        projects := asArr (jsGet (JsValue.obj fs) "projects")
        certifications := asArr (jsGet (JsValue.obj fs) "certifications")
        languages := asArr (jsGet (JsValue.obj fs) "languages")
        contact_information := jsCoalesce (jsGet (JsValue.obj fs) "contact_information")
          defaultContactJs
        raw_sections := jsCoalesce (jsGet (JsValue.obj fs) "_raw_sections") (.obj [])
        raw_text := jsCoalesce (jsGet (JsValue.obj fs) "_raw_text") .undefinedJs } :
        Except String ResumeDataN) = Except.ok r := h
    exact ((Except.ok.injEq _ _).mp h2).symm
  subst hr
  simp [normalizeParsed, ResumeDataN.toJs, jsGet, jsLookup, jsCoalesce_stable, asArr]

/-- The record produced by normalizing the empty object. -/
def c10r : ResumeDataN :=
  { objective_or_summary := .null
    skills_or_tech_stack := []
    education := []
    experience := []
    projects := []
    certifications := []
    languages := []
    contact_information := defaultContactJs
    raw_sections := .obj []
    raw_text := .undefinedJs }

/-- C10 witness: idempotence at the empty object. -/
theorem c10_idempotent_witness :
    normalizeParsed (JsValue.obj []) = Except.ok c10r ∧
    normalizeParsed c10r.toJs = Except.ok c10r :=
  ⟨rfl, c10_idempotent [] c10r rfl⟩

/-- The exact not-found sentinel (`FALLBACK` in src/src/lib/chatbot.ts). -/
def FALLBACK : Str := strL "The resume does not contain this information."

/-- The fixed empty-query help message of the deterministic responder. -/
def helpMsg : Str :=
  strL "Please ask a question about the resume. Try: 'skills', 'experience', 'education', 'projects', 'contact', or 'summary'."

/-- Model of `String(v)` for template-literal interpolation.  (Deviation from
JavaScript that no claim path reaches: elements of arrays are rendered
recursively with `String`, whereas `Array.prototype.toString` renders null
and undefined elements as empty strings.) -/
def jsToString : JsValue → Str
  | .undefinedJs => strL "undefined"
  | .null => strL "null"
  | .bool true => strL "true"
  | .bool false => strL "false"
  | .num n => strL (toString n)
  | .str s => s
  | .arr es => joinSep [','] (es.attach.map (fun x => jsToString x.1))
  | .obj _ => strL "[object Object]"
decreasing_by
  have := List.sizeOf_lt_of_mem x.2
  simp only [JsValue.arr.sizeOf_spec]
  omega

/-- Opening and closing curly braces as characters. -/
def lbrace : Char := Char.ofNat 123

def rbrace : Char := Char.ofNat 125

/-- Approximate model of `JSON.stringify` (reachable only from the education
formatting fallback; strings are quoted without escape handling, undefined
object values are kept — resumes contain none of these edge shapes). -/
def jsStringify : JsValue → Str
  | .undefinedJs => strL "undefined"
  | .null => strL "null"
  | .bool true => strL "true"
  | .bool false => strL "false"
  | .num n => strL (toString n)
  | .str s => ['"'] ++ s ++ ['"']
  | .arr es => ['['] ++ joinSep [','] (es.attach.map (fun x => jsStringify x.1)) ++ [']']
  | .obj fs =>
      [lbrace] ++
      joinSep [','] (fs.attach.map (fun x => ['"'] ++ strL x.1.1 ++ ['"', ':'] ++
        jsStringify x.1.2)) ++ [rbrace]
decreasing_by
  · have := List.sizeOf_lt_of_mem x.2
    simp only [JsValue.arr.sizeOf_spec]
    omega
  · have h1 := List.sizeOf_lt_of_mem x.2
    have h2 : sizeOf x.1.2 < sizeOf x.1 := by
      obtain ⟨⟨k, v⟩, hm⟩ := x
      simp
    simp only [JsValue.obj.sizeOf_spec]
    omega

/-- Model of calling `.trim()` on a dynamic value: a TypeError unless the
value is a string. -/
def trimMethod : JsValue → Except String Str
  | .str s => .ok (jsTrim s)
  | _ => .error "TypeError: trim is not a function"

/-- Model of `extractSkillNames` (src/src/lib/chatbot.ts, lines 39-49). -/
def extractSkillNames (skillsRaw : List JsValue) : List Str :=
  (skillsRaw.map (fun s =>
    match s with
    | .str t => jsTrim t
    | .obj fs =>
        match jsLookup fs "name" with
        | some (.str n) => jsTrim n
        | _ => jsTrim (jsToString s)
    | _ => jsTrim (jsToString s))).filter (fun s => !s.isEmpty)

/-- Model of `formatList` (returns null on an empty list). -/
def formatList (items : List Str) : Option Str :=
  if items.isEmpty then none
  else some (joinSep ['\n'] (items.map (fun it => strL "- **" ++ it ++ strL "**")))

/-- Model of `ks.some(k => q === k || q.includes(k))`. -/
def queryMatches (ks : List Str) (q : Str) : Bool := ks.any (fun k => q == k || hasSub q k)

def isSkillQuery (q : Str) : Bool :=
  queryMatches (["skill", "skills", "technical skills", "tech", "tech stack", "technologies",
    "competencies"].map strL) q

def isExperienceQuery (q : Str) : Bool :=
  queryMatches (["experience", "work", "employment", "jobs", "job", "work history",
    "career"].map strL) q

def isEducationQuery (q : Str) : Bool :=
  queryMatches (["education", "degree", "college", "university", "qualification",
    "academic"].map strL) q

def isProjectsQuery (q : Str) : Bool :=
  queryMatches (["projects", "project", "portfolio", "what projects"].map strL) q

def isCertificationsQuery (q : Str) : Bool :=
  queryMatches (["certifications", "certificate", "licenses", "certification",
    "credentials"].map strL) q

def isContactQuery (q : Str) : Bool :=
  queryMatches (["contact", "email", "phone", "contact information", "phone number"].map strL) q

def isSummaryQuery (q : Str) : Bool :=
  queryMatches (["summary", "about", "objective", "overview", "profile"].map strL) q

def isLanguagesQuery (q : Str) : Bool :=
  queryMatches (["languages", "language", "language skills"].map strL) q

/-- The repeated raw-content-first pattern of the responder branches:
`if (raw && raw.trim().length > 0) return raw.trim();` then the structured
fallback. -/
def rawFirst (raw : JsValue) (fallbackAns : Except String Str) : Except String Str :=
  if truthy raw then
    trimMethod raw >>= fun s => if !s.isEmpty then .ok s else fallbackAns
  else fallbackAns

/-- Structured fallback of the skills branch. -/
def skillsStructured (parsed : ResumeDataN) : Except String Str :=
  let skills := extractSkillNames parsed.skills_or_tech_stack
  if skills.isEmpty then .ok FALLBACK
  else .ok ((formatList skills).getD FALLBACK)

/-- Skills branch of `answerFromParsedDeterministic` (lines 101-114). -/
def skillsAnswer (parsed : ResumeDataN) : Except String Str :=
  rawFirst (optChain parsed.raw_sections "skills") (skillsStructured parsed)

/-- Format one experience entry (lines 127-142): dynamic field merging with
trims that throw on non-string truthy values, exactly as in JavaScript. -/
def fmtExpEntry (e : JsValue) : Except String Str := do
  let t1 ← (match e with
    | .null => Except.error "TypeError: cannot read properties of null"
    | .undefinedJs => Except.error "TypeError: cannot read properties of undefined"
    | v => Except.ok v)
  let title ← trimMethod (jsOr (jsGet t1 "title") (jsOr (jsGet t1 "role")
    (jsOr (jsGet t1 "position") (JsValue.str []))))
  let org ← trimMethod (jsOr (jsGet t1 "organization") (jsOr (jsGet t1 "company")
    (jsOr (jsGet t1 "employer") (JsValue.str []))))
  let start := jsOr (jsGet t1 "start_date") (jsOr (jsGet t1 "start_year")
    (jsOr (jsGet t1 "from") (jsOr (jsGet t1 "duration") (JsValue.str []))))
  let endv := jsOr (jsGet t1 "end_date") (jsOr (jsGet t1 "end_year")
    (jsOr (jsGet t1 "to") (JsValue.str [])))
  let dateRange := if truthy start || truthy endv then
      strL " — " ++ jsToString (jsOr start (JsValue.str [])) ++
      (if truthy start && truthy endv then strL " to " else []) ++
      jsToString (jsOr endv (JsValue.str []))
    else []
  let primary := if !title.isEmpty then strL "**" ++ title ++ strL "**"
    else if !org.isEmpty then strL "**" ++ org ++ strL "**" else []
  let orgText := if !title.isEmpty && !org.isEmpty then strL ", " ++ org
    else if !org.isEmpty then strL "**" ++ org ++ strL "**" else []
  let desc := jsOr (jsGet t1 "description") (jsGet t1 "details")
  let resp := jsOr (jsGet t1 "responsibilities") (JsValue.arr [])
  let respText := match resp with
    | .arr rs =>
        if !rs.isEmpty then
          strL "\n  " ++ joinSep (strL "\n  ") (rs.map (fun r => strL "• " ++ jsToString r))
        else []
    | _ => []
  return strL "- " ++ primary ++ orgText ++ dateRange ++
    (if truthy desc then strL "\n  " ++ jsToString desc else []) ++ respText

/-- Structured fallback of the experience branch (lines 125-144). -/
def experienceStructured (parsed : ResumeDataN) : Except String Str :=
  if parsed.experience.isEmpty then .ok FALLBACK
  else do
    let lines ← parsed.experience.mapM fmtExpEntry
    return joinSep ['\n'] lines

/-- Experience branch (lines 117-145). -/
def experienceAnswer (parsed : ResumeDataN) : Except String Str :=
  rawFirst (optChain parsed.raw_sections "experience") (experienceStructured parsed)

/-- Format one education entry (lines 156-168). -/
def fmtEduEntry (e : JsValue) : Except String Str := do
  let t1 ← (match e with
    | .null => Except.error "TypeError: cannot read properties of null"
    | .undefinedJs => Except.error "TypeError: cannot read properties of undefined"
    | v => Except.ok v)
  let degree ← trimMethod (jsOr (jsGet t1 "degree") (jsOr (jsGet t1 "title") (JsValue.str [])))
  let inst ← trimMethod (jsOr (jsGet t1 "institution") (jsOr (jsGet t1 "school")
    (JsValue.str [])))
  let field ← trimMethod (jsOr (jsGet t1 "field") (JsValue.str []))
  let year ← trimMethod (jsOr (jsGet t1 "year") (jsOr (jsGet t1 "end_year") (JsValue.str [])))
  let years := if !year.isEmpty then strL " — " ++ year else []
  let fieldText := if !field.isEmpty then strL " in " ++ field else []
  if !degree.isEmpty && !inst.isEmpty then
    return strL "- **" ++ degree ++ strL "**" ++ fieldText ++ strL ", " ++ inst ++ years
  else if !degree.isEmpty then
    return strL "- **" ++ degree ++ strL "**" ++ fieldText ++ years
  else if !inst.isEmpty then
    return strL "- **" ++ inst ++ strL "**" ++ years
  else
    let dv := jsGet t1 "details"
    if truthy dv then return strL "- " ++ jsToString dv ++ years
    else return strL "- " ++ jsStringify t1

/-- Structured fallback of the education branch (lines 154-169). -/
def educationStructured (parsed : ResumeDataN) : Except String Str :=
  if parsed.education.isEmpty then .ok FALLBACK
  else do
    let lines ← parsed.education.mapM fmtEduEntry
    return joinSep ['\n'] lines

/-- Education branch (lines 148-170). -/
def educationAnswer (parsed : ResumeDataN) : Except String Str :=
  rawFirst (optChain parsed.raw_sections "education") (educationStructured parsed)

/-- Format one project entry (lines 181-189). -/
def fmtProjEntry (p : JsValue) : Except String Str := do
  let t1 ← (match p with
    | .null => Except.error "TypeError: cannot read properties of null"
    | .undefinedJs => Except.error "TypeError: cannot read properties of undefined"
    | v => Except.ok v)
  let title ← trimMethod (jsOr (jsGet t1 "title") (jsOr (jsGet t1 "name") (JsValue.str [])))
  let desc := jsOr (jsGet t1 "description") (jsGet t1 "details")
  let techs := jsOr (jsGet t1 "technologies") (JsValue.arr [])
  let techText := match techs with
    | .arr ts =>
        if !ts.isEmpty then
          strL " (" ++ joinSep (strL ", ") (ts.map jsToString) ++ strL ")"
        else []
    | _ => []
  if !title.isEmpty then
    return strL "- **" ++ title ++ strL "**" ++
      (if truthy desc then strL " — " ++ jsToString desc else []) ++ techText
  else if truthy desc then
    return strL "- " ++ jsToString desc ++ techText
  else
    return strL "- " ++ (jsToString t1).take 180

/-- Structured fallback of the projects branch (lines 179-190). -/
def projectsStructured (parsed : ResumeDataN) : Except String Str :=
  if parsed.projects.isEmpty then .ok FALLBACK
  else do
    let lines ← parsed.projects.mapM fmtProjEntry
    return joinSep ['\n'] lines

/-- Projects branch (lines 173-191). -/
def projectsAnswer (parsed : ResumeDataN) : Except String Str :=
  rawFirst (optChain parsed.raw_sections "projects") (projectsStructured parsed)

/-- Format one certification entry (lines 202-209); this path never throws
(no method calls, only guarded property reads). -/
def fmtCert (it : JsValue) : Str :=
  match it with
  | .str s => strL "- **" ++ s ++ strL "**"
  | .obj fs =>
      let t := (jsLookup fs "title").getD .undefinedJs
      if truthy t then
        let ib := (jsLookup fs "issued_by").getD .undefinedJs
        strL "- **" ++ jsToString t ++ strL "**" ++
          (if truthy ib then strL ", " ++ jsToString ib else [])
      else
        let n := (jsLookup fs "name").getD .undefinedJs
        if truthy n then strL "- **" ++ jsToString n ++ strL "**"
        else strL "- **" ++ jsToString it ++ strL "**"
  | v => strL "- **" ++ jsToString v ++ strL "**"

/-- Certifications branch (lines 194-211). -/
def certificationsAnswer (parsed : ResumeDataN) : Except String Str :=
  rawFirst (optChain parsed.raw_sections "certifications")
    (if parsed.certifications.isEmpty then .ok FALLBACK
     else .ok (joinSep ['\n'] (parsed.certifications.map fmtCert)))

/-- Contact branch (lines 214-223); total. -/
def contactAnswer (parsed : ResumeDataN) : Except String Str :=
  let ci := jsOr parsed.contact_information (.obj [])
  let parts : List Str :=
    (if truthy (jsGet ci "name") then
      [strL "- **Name:** " ++ jsToString (jsGet ci "name")] else []) ++
    (if truthy (jsGet ci "email") then
      [strL "- **Email:** " ++ jsToString (jsGet ci "email")] else []) ++
    (if truthy (jsGet ci "phone") then
      [strL "- **Phone:** " ++ jsToString (jsGet ci "phone")] else []) ++
    (if truthy (jsGet ci "location") then
      [strL "- **Location:** " ++ jsToString (jsGet ci "location")] else [])
  if parts.isEmpty then .ok FALLBACK else .ok (joinSep ['\n'] parts)

/-- Summary branch structured tail (lines 232-240). -/
def summaryStructured (parsed : ResumeDataN) : Except String Str :=
  let text : Str :=
    match parsed.objective_or_summary with
    | .str t => t
    | .obj fs =>
        match jsLookup fs "text" with
        | some tv => jsToString (jsOr tv (JsValue.str []))
        | none => []
    | _ => []
  if text.isEmpty || (jsTrim text).isEmpty then .ok FALLBACK
  else .ok (jsTrim text)

/-- Summary branch (lines 226-241); the raw content read is
`_raw_sections?.objective`. -/
def summaryAnswer (parsed : ResumeDataN) : Except String Str :=
  rawFirst (optChain parsed.raw_sections "objective") (summaryStructured parsed)

/-- Languages branch (lines 244-254). -/
def languagesAnswer (parsed : ResumeDataN) : Except String Str :=
  rawFirst (optChain parsed.raw_sections "languages")
    (if parsed.languages.isEmpty then .ok FALLBACK
     else .ok ((formatList (parsed.languages.map (fun l =>
       match l with | .str s => s | v => jsToString v))).getD FALLBACK))

/-- Model of `answerFromParsedDeterministic` (src/src/lib/chatbot.ts, lines
78-262): the eight intent tests evaluated in fixed order, then the
empty-query help message, then the not-found sentinel. -/
def answerFromParsedDeterministic (parsed : ResumeDataN) (q : Str) : Except String Str :=
  if isSkillQuery q then skillsAnswer parsed
  else if isExperienceQuery q then experienceAnswer parsed
  else if isEducationQuery q then educationAnswer parsed
  else if isProjectsQuery q then projectsAnswer parsed
  else if isCertificationsQuery q then certificationsAnswer parsed
  else if isContactQuery q then contactAnswer parsed
  else if isSummaryQuery q then summaryAnswer parsed
  else if isLanguagesQuery q then languagesAnswer parsed
  else if q.isEmpty then .ok helpMsg
  else .ok FALLBACK

/-- The eight query intents of the deterministic responder. -/
inductive Intent
  | skills | experience | education | projects | certifications | contact | summary | languages
deriving DecidableEq, Repr

/-- Intent resolution in the responder's fixed evaluation order. -/
def resolveIntent (q : Str) : Option Intent :=
  if isSkillQuery q then some .skills
  else if isExperienceQuery q then some .experience
  else if isEducationQuery q then some .education
  else if isProjectsQuery q then some .projects
  else if isCertificationsQuery q then some .certifications
  else if isContactQuery q then some .contact
  else if isSummaryQuery q then some .summary
  else if isLanguagesQuery q then some .languages
  else none

/-- The raw-sections key each intent reads before reconstructing (the
contact intent reads none). -/
def intentRawKey : Intent → Option String
  | .skills => some "skills"
  | .experience => some "experience"
  | .education => some "education"
  | .projects => some "projects"
  | .certifications => some "certifications"
  | .contact => none
  | .summary => some "objective"
  | .languages => some "languages"

theorem rawFirst_str (s : Str) (k : Except String Str) (hnb : (jsTrim s).isEmpty = false) :
    rawFirst (JsValue.str s) k = Except.ok (jsTrim s) := by
  have hs : s.isEmpty = false := by
    cases s with
    | nil => exact absurd hnb (by decide)
    | cons a l => rfl
  simp [rawFirst, truthy, hs, trimMethod, hnb, Bind.bind, Except.bind]

/-- C4 amended: for every record and every query resolving to an intent that
is backed by a raw section (summary reads `rawSections.objective`; contact
has no raw backing), if that raw section holds a string that is non-empty
after trimming, the deterministic responder returns exactly that string
trimmed, regardless of the structured fields. -/
theorem c4_amended (parsed : ResumeDataN) (q : Str) (i : Intent) (key : String) (s : Str)
    (hi : resolveIntent q = some i) (hk : intentRawKey i = some key)
    (hs : optChain parsed.raw_sections key = JsValue.str s)
    (hnb : (jsTrim s).isEmpty = false) :
    answerFromParsedDeterministic parsed q = Except.ok (jsTrim s) := by
  unfold resolveIntent at hi
  unfold answerFromParsedDeterministic
  split_ifs at hi ⊢ with h1 h2 h3 h4 h5 h6 h7 h8
  · injection hi with hii; subst hii
    injection hk with hkk; subst hkk
    unfold skillsAnswer; rw [hs]; exact rawFirst_str _ _ hnb
  · injection hi with hii; subst hii
    injection hk with hkk; subst hkk
    unfold experienceAnswer; rw [hs]; exact rawFirst_str _ _ hnb
  · injection hi with hii; subst hii
    injection hk with hkk; subst hkk
    unfold educationAnswer; rw [hs]; exact rawFirst_str _ _ hnb
  · injection hi with hii; subst hii
    injection hk with hkk; subst hkk
    unfold projectsAnswer; rw [hs]; exact rawFirst_str _ _ hnb
  · injection hi with hii; subst hii
    injection hk with hkk; subst hkk
    unfold certificationsAnswer; rw [hs]; exact rawFirst_str _ _ hnb
  · injection hi with hii; subst hii
    exact Option.noConfusion hk
  · injection hi with hii; subst hii
    injection hk with hkk; subst hkk
    unfold summaryAnswer; rw [hs]; exact rawFirst_str _ _ hnb
  · injection hi with hii; subst hii
    injection hk with hkk; subst hkk
    unfold languagesAnswer; rw [hs]; exact rawFirst_str _ _ hnb

/-- C4 counterexample record: a raw skills section holding only whitespace
(non-empty, but blank after trimming). -/
def c4r : ResumeDataN :=
  { objective_or_summary := .null
    skills_or_tech_stack := []
    education := []
    experience := []
    projects := []
    certifications := []
    languages := []
    contact_information := defaultContactJs
    raw_sections := .obj [("skills", .str (strL " "))]
    raw_text := .undefinedJs }

/-- C4 counterexample: `rawSections.skills = " "` is non-empty, yet the
responder returns the not-found sentinel for the query "skill" instead of
the trimmed raw text "" — the code requires the raw section to be non-blank
after trimming, not merely non-empty. -/
theorem c4_counterexample :
    optChain c4r.raw_sections "skills" = JsValue.str (strL " ") ∧
    answerFromParsedDeterministic c4r (strL "skill") = Except.ok FALLBACK ∧
    FALLBACK ≠ jsTrim (strL " ") :=
  ⟨rfl, rfl, by decide⟩

/-- C4 witness record: the spec's own skills example. -/
def c4w : ResumeDataN :=
  { objective_or_summary := .null
    skills_or_tech_stack := []
    education := []
    experience := []
    projects := []
    certifications := []
    languages := []
    contact_information := defaultContactJs
    raw_sections := .obj [("skills", .str (strL "Python, Go, SQL"))]
    raw_text := .undefinedJs }

/-- C4 witness: the amended theorem at the record with
`rawSections.skills = "Python, Go, SQL"` and query "skill" — the exact
instance named by the claim. -/
theorem c4_amended_witness :
    resolveIntent (strL "skill") = some Intent.skills ∧
    intentRawKey Intent.skills = some "skills" ∧
    optChain c4w.raw_sections "skills" = JsValue.str (strL "Python, Go, SQL") ∧
    answerFromParsedDeterministic c4w (strL "skill") =
      Except.ok (jsTrim (strL "Python, Go, SQL")) ∧
    jsTrim (strL "Python, Go, SQL") = strL "Python, Go, SQL" :=
  ⟨rfl, rfl, rfl,
   c4_amended c4w (strL "skill") Intent.skills "skills" (strL "Python, Go, SQL")
     rfl rfl rfl (by decide),
   by decide⟩

/-- C5: the not-found sentinel is the exact required literal, and for every
record with no experience data (blank or absent raw experience section and
empty structured experience list) the query "work" returns exactly the
sentinel — never an empty string, never an exception. -/
theorem c5_not_found (parsed : ResumeDataN)
    (hraw : optChain parsed.raw_sections "experience" = JsValue.undefinedJs ∨
            optChain parsed.raw_sections "experience" = JsValue.null ∨
            ∃ s, optChain parsed.raw_sections "experience" = JsValue.str s ∧ jsTrim s = [])
    (hex : parsed.experience = []) :
    FALLBACK = strL "The resume does not contain this information." ∧
    answerFromParsedDeterministic parsed (strL "work") = Except.ok FALLBACK ∧
    FALLBACK ≠ [] := by
  refine ⟨rfl, ?_, by decide⟩
  have h1 : isSkillQuery (strL "work") = false := by decide
  have h2 : isExperienceQuery (strL "work") = true := by decide
  simp only [answerFromParsedDeterministic, h1, h2, Bool.false_eq_true, ite_false, ite_true]
  unfold experienceAnswer rawFirst
  rcases hraw with h | h | ⟨s, hs, hb⟩
  · rw [h]; simp [truthy, experienceStructured, hex]
  · rw [h]; simp [truthy, experienceStructured, hex]
  · rw [hs]
    by_cases hse : s.isEmpty
    · simp [truthy, hse, experienceStructured, hex]
    · simp [truthy, hse, trimMethod, hb, experienceStructured, hex, Bind.bind, Except.bind]

/-- C5 witness: the sentinel behaviour at the all-empty normalized record. -/
theorem c5_not_found_witness :
    optChain c10r.raw_sections "experience" = JsValue.undefinedJs ∧
    c10r.experience = [] ∧
    (FALLBACK = strL "The resume does not contain this information." ∧
      answerFromParsedDeterministic c10r (strL "work") = Except.ok FALLBACK ∧
      FALLBACK ≠ []) :=
  ⟨rfl, rfl, c5_not_found c10r (Or.inl rfl) rfl⟩

/-- C6 amended: for every record the empty query returns the fixed help
message (never the sentinel), but the message enumerates only six intents —
skills, experience, education, projects, contact and summary — omitting
certifications and languages. -/
theorem c6_amended (parsed : ResumeDataN) :
    answerFromParsedDeterministic parsed (strL "") = Except.ok helpMsg ∧
    helpMsg ≠ FALLBACK ∧
    hasSub helpMsg (strL "skills") = true ∧
    hasSub helpMsg (strL "experience") = true ∧
    hasSub helpMsg (strL "education") = true ∧
    hasSub helpMsg (strL "projects") = true ∧
    hasSub helpMsg (strL "contact") = true ∧
    hasSub helpMsg (strL "summary") = true ∧
    hasSub helpMsg (strL "certification") = false ∧
    hasSub helpMsg (strL "languages") = false :=
  ⟨rfl, by decide, by decide, by decide, by decide, by decide, by decide, by decide,
   by decide, by decide⟩

/-- C6 counterexample: at a concrete record, the empty query yields the help
message, and that message does not name certifications or languages — so it
does not enumerate all eight supported intents as claimed. -/
theorem c6_counterexample :
    answerFromParsedDeterministic c10r (strL "") = Except.ok helpMsg ∧
    hasSub helpMsg (strL "certification") = false ∧
    hasSub helpMsg (strL "languages") = false :=
  ⟨rfl, by decide, by decide⟩
